import Mathlib

set_option autoImplicit false

/-! Verification of the per-campaign ETL pipeline of pmnch-dashboard-api.
The definitions below are a shallow embedding of `app/utils/data_loader.py`
and the helpers it calls (`app/helpers.py`, the column-name helpers, and the
coordinate-loading pass).  Dataframes are lists of rows; a row is an
association list from column name to a loosely typed cell, mirroring the
pandas "table of loosely typed columns" model: a column that was never set
for a row reads back as a missing value (`NaN`). -/

/-- Question codes (`app/enums/question_code.py`, which is not under src/).
Modelled from the spec: every campaign supports `q1`; the only later question
code in this repository is `q2`. -/
inductive QuestionCode where
  | q1
  | q2
  deriving DecidableEq

/-- Modelled from the spec: the `CampaignCode` enum (`app/enums/campaign_code.py`,
not under src/).  Only members that `data_loader.py` or `app/helpers.py`
branch on are distinguished; `other` stands for any remaining campaign. -/
inductive CampaignCode where
  | economic_empowerment_mexico
  | what_young_people_want
  | what_women_want_pakistan
  | healthwellbeing
  | other
  deriving DecidableEq

/-- The `.value` of a question code. -/
def QuestionCode.value : QuestionCode → String
  | .q1 => "q1"
  | .q2 => "q2"

/-- `get_campaign_q_codes` (`app/helpers.py`): every campaign has `q1`;
`economic_empowerment_mexico` additionally has `q2`. -/
def get_campaign_q_codes (campaign_code : CampaignCode) : List QuestionCode :=
  if campaign_code = .economic_empowerment_mexico then [.q1, .q2] else [.q1]

/-- Modelled from the spec: `app/utils/q_col_names.py` is not under src/; the
column names follow the BigQuery aliases in `app/services/bigquery_interactions.py`
(`q1_raw_response`, `q1_original_language`, `q1_canonical_code`, `q1_lemmatized`). -/
def get_raw_response_col_name (q : QuestionCode) : String :=
  q.value ++ "_raw_response"

/-- Lemmatized-text column name for a question code. -/
def get_lemmatized_col_name (q : QuestionCode) : String :=
  q.value ++ "_lemmatized"

/-- Canonical-code column name for a question code. -/
def get_canonical_code_col_name (q : QuestionCode) : String :=
  q.value ++ "_canonical_code"

/-- Original-language column name for a question code. -/
def get_original_language_col_name (q : QuestionCode) : String :=
  q.value ++ "_original_language"

/-- Tokenized column name for a question code. -/
def get_tokenized_col_name (q : QuestionCode) : String :=
  q.value ++ "_tokenized"

/-- Top-level-category column name for a question code. -/
def get_top_level_col_name (q : QuestionCode) : String :=
  q.value ++ "_top_level"

/-- One cell of the loosely typed dataframe.  `nan` is a missing value
(`NaN`/`None`); `toks` a list-of-tokens cell; `json p` is the serialized
`additional_fields` payload carried in parsed form: `p = none` models a
payload on which `json.loads` raises, `p = some kvs` a payload that parses to
the string-valued dict `kvs`. -/
inductive Cell where
  | s (v : String)
  | toks (v : List String)
  | json (v : Option (List (String × String)))
  | nan
  deriving DecidableEq

/-- A dataframe row: association list from column name to cell. -/
abbrev Row := List (String × Cell)

/-- Reading a column of a row; a column that was never set reads as `NaN`. -/
def rowGet (r : Row) (c : String) : Cell :=
  match r.lookup c with
  | some v => v
  | none => Cell.nan

/-- Writing a column of a row (`row[col] = value`): replace the first binding
for the column, or append a new one. -/
def rowSet : Row → String → Cell → Row
  | [], c, v => [(c, v)]
  | (c', v') :: rest, c, v =>
    if c' = c then (c, v) :: rest else (c', v') :: rowSet rest c v

/-- Python truthiness of an optional string (`None` and `""` are falsy). -/
def truthy : Option String → Bool
  | some v => !v.isEmpty
  | none => false

/-- Python truthiness of a cell (`NaN` is modelled as Python `None` here;
see the notes in the step definitions that use it). -/
def cellTruthy : Cell → Bool
  | .s v => !v.isEmpty
  | .toks v => !v.isEmpty
  | .json _ => true
  | .nan => false

/-- Python `str.isnumeric`, modelled on ASCII decimal digits (where it agrees
with `int()`): nonempty and all characters are digits. -/
def pyIsNumeric (v : String) : Bool :=
  !v.isEmpty && v.data.all Char.isDigit

/-- The numeric value of a decimal-digit string (`int(v)` for `v.isnumeric()`). -/
def pyInt (v : String) : Nat :=
  v.data.foldl (fun a c => 10 * a + (c.toNat - 48)) 0

/-- The numeric branch of `get_age_bucket` (data_loader.py lines 58-71). -/
def ageBucketOfInt (age : Int) : String :=
  if 55 ≤ age then "55+"
  else if 45 ≤ age then "45-54"
  else if 35 ≤ age then "35-44"
  else if 25 ≤ age then "25-34"
  else if 20 ≤ age then "20-24"
  else if 15 ≤ age then "15-19"
  else "N/A"

/-- The argument type of `get_age_bucket` (`age: str | int | None`). -/
inductive AgeIn where
  | none
  | s (v : String)
  | i (v : Int)

/-- `get_age_bucket` (data_loader.py lines 45-71): `None` passes through,
numeric strings are converted and bucketed, non-numeric strings are returned
unchanged, ints are bucketed. -/
def get_age_bucket : AgeIn → Option String
  | .none => Option.none
  | .s v => if pyIsNumeric v then some (ageBucketOfInt (pyInt v)) else some v
  | .i n => some (ageBucketOfInt n)

/-- `filter_ages_10_to_24` (data_loader.py lines 74-83): a numeric string in
[10, 24] is returned unchanged, everything else (non-numeric strings and
non-string values) becomes `NaN`. -/
def filter_ages_10_to_24 : Cell → Cell
  | .s a =>
    if pyIsNumeric a && decide (10 ≤ pyInt a) && decide (pyInt a ≤ 24)
    then .s a else .nan
  | _ => .nan

/-- The age-bucketing pass applied to an `age` dataframe cell; a missing value
reaches `get_age_bucket` as Python `None` and is returned unchanged. -/
def ageBucketCell : Cell → Cell
  | .s v =>
    match get_age_bucket (.s v) with
    | some r => .s r
    | none => .nan
  | c => c

/-- Python `str.split(sep)` for a one-character separator, on the character
list: empty pieces are kept and the empty string yields `[[]]`. -/
def splitOnChar (c : Char) : List Char → List (List Char)
  | [] => [[]]
  | x :: xs =>
    match splitOnChar c xs with
    | [] => [[]]
    | h :: t => if x = c then [] :: h :: t else (x :: h) :: t

/-- Python `sep.join(pieces)` for a one-character separator, on character lists. -/
def joinWithChar (c : Char) : List (List Char) → List Char
  | [] => []
  | [x] => x
  | x :: y :: t => x ++ c :: joinWithChar c (y :: t)

/-- Python `s.split(sep)` for a one-character separator. -/
def pySplit (c : Char) (s : String) : List String :=
  (splitOnChar c s.data).map String.mk

/-- Python `sep.join(l)` for a one-character separator. -/
def pyJoin (c : Char) (l : List String) : String :=
  String.mk (joinWithChar c (l.map String.data))

/-- Insert a string into a strictly increasing list, keeping it strictly
increasing and duplicate-free. -/
def sortedInsert (a : String) : List String → List String
  | [] => [a]
  | b :: bs =>
    if a = b then b :: bs
    else if a < b then a :: b :: bs
    else b :: sortedInsert a bs

/-- Python `sorted(set(l))` for strings: the strictly increasing enumeration
of the distinct members of `l` (string order is code-point lexicographic in
both Python and Lean). -/
def sortDedup (l : List String) : List String :=
  l.foldr sortedInsert []

/-- `get_top_level` (data_loader.py lines 35-42).  The per-campaign leaf→top
mapping returned by `code_hierarchy.get_mapping_to_top_level` (a module not
under src/) is passed in as an association list; Python's `dict.get(cat, cat)`
is the `getD` fallback and `sorted(set(...))` is `sortDedup`. -/
def get_top_level (mapping : List (String × String)) (leaf_categories : String) : String :=
  pyJoin '/'
    (sortDedup ((pySplit '/' leaf_categories).map
      (fun cat => (mapping.lookup cat).getD cat)))

/-- `json.loads` applied to an `additional_fields` cell: yields the parsed
dict, or fails (raising) on a non-parseable payload or a non-string cell. -/
def jsonLoads : Cell → Option (List (String × String))
  | .json p => p
  | _ => none

/-- `populate_additional_q_columns` (data_loader.py lines 86-137) for one row.
Returns `none` when `json.loads` raises on the `additional_fields` payload;
otherwise sets the raw-response column (joining original and English text for
`economic_empowerment_mexico` when both are truthy, using only the original
otherwise for that campaign, and using the original — possibly `None` — for
all other campaigns), and sets the lemmatized / canonical-code /
original-language columns only when the corresponding field is truthy. -/
def populate_additional_q_columns (campaign_code : CampaignCode)
    (q_code : QuestionCode) (row : Row) : Option Row :=
  match jsonLoads (rowGet row "additional_fields") with
  | none => none
  | some additional_fields =>
    let response_original_text :=
      additional_fields.lookup (q_code.value ++ "_response_original_text")
    let response_english_text :=
      additional_fields.lookup (q_code.value ++ "_response_english_text")
    let response_lemmatized_text :=
      additional_fields.lookup (q_code.value ++ "_response_lemmatized_text")
    let response_nlu_category :=
      additional_fields.lookup (q_code.value ++ "_response_nlu_category")
    let response_original_lang :=
      additional_fields.lookup (q_code.value ++ "_response_original_lang")
    let row :=
      if campaign_code = .economic_empowerment_mexico then
        if truthy response_original_text && truthy response_english_text then
          rowSet row (get_raw_response_col_name q_code)
            (.s (response_original_text.getD "" ++ " (" ++
                 response_english_text.getD "" ++ ")"))
        else if truthy response_original_text then
          rowSet row (get_raw_response_col_name q_code)
            (.s (response_original_text.getD ""))
        else row
      else
        rowSet row (get_raw_response_col_name q_code)
          (match response_original_text with
           | some v => .s v
           | none => .nan)
    let row :=
      if truthy response_lemmatized_text then
        rowSet row (get_lemmatized_col_name q_code)
          (.s (response_lemmatized_text.getD ""))
      else row
    let row :=
      if truthy response_nlu_category then
        rowSet row (get_canonical_code_col_name q_code)
          (.s (response_nlu_category.getD ""))
      else row
    let row :=
      if truthy response_original_lang then
        rowSet row (get_original_language_col_name q_code)
          (.s (response_original_lang.getD ""))
      else row
    some row

/-- Mapping a fallible per-row function over a dataframe: any raising row
aborts the whole pass (pandas `apply` propagates the exception). -/
def listMapM {α β : Type} (f : α → Option β) : List α → Option (List β)
  | [] => some []
  | a :: as =>
    match f a with
    | none => none
    | some b =>
      match listMapM f as with
      | none => none
      | some bs => some (b :: bs)

/-- Running one fallible dataframe pass per question code, in order. -/
def stepForQs (f : QuestionCode → List Row → Option (List Row)) :
    List QuestionCode → List Row → Option (List Row)
  | [], df => some df
  | q :: rest, df =>
    match f q df with
    | none => none
    | some df' => stepForQs f rest df'

/-- The additional-question pass (data_loader.py lines 157-167): for every
question code other than `q1`, apply `populate_additional_q_columns` row-wise. -/
def populateStep (campaign_code : CampaignCode) (qcodes : List QuestionCode)
    (df : List Row) : Option (List Row) :=
  stepForQs
    (fun q d =>
      if q = .q1 then some d
      else listMapM (populate_additional_q_columns campaign_code q) d)
    qcodes df

/-- Tokenizing one row for one question code (data_loader.py lines 169-173):
`x.split(" ")` raises unless the lemmatized cell holds a string. -/
def tokenizeRow (q : QuestionCode) (row : Row) : Option Row :=
  match rowGet row (get_lemmatized_col_name q) with
  | .s t => some (rowSet row (get_tokenized_col_name q) (.toks (pySplit ' ' t)))
  | _ => none

/-- The tokenization pass over all in-scope question codes. -/
def tokenizeStep (qcodes : List QuestionCode) (df : List Row) : Option (List Row) :=
  stepForQs (fun q d => listMapM (tokenizeRow q) d) qcodes df

/-- The static country reference entry (`constants.COUNTRIES_DATA` values). -/
structure CountryInfo where
  name : String
  demonym : String
  deriving DecidableEq

/-- The `canonical_country` pass (data_loader.py lines 175-177):
`COUNTRIES_DATA[x]["name"]` raises `KeyError` when the alpha-2 code is absent
from the reference data (or the cell is not a string). -/
def canonicalCountryStep (countriesData : List (String × CountryInfo))
    (df : List Row) : Option (List Row) :=
  listMapM
    (fun row =>
      match rowGet row "alpha2country" with
      | .s code =>
        match countriesData.lookup code with
        | some info => some (rowSet row "canonical_country" (.s info.name))
        | none => none
      | _ => none)
    df

/-- The age pass (data_loader.py lines 180-187): `what_young_people_want`
filters ages to [10, 24] and drops the resulting `NaN` rows; every other
campaign buckets ages in place without dropping rows. -/
def ageStep (campaign_code : CampaignCode) (df : List Row) : List Row :=
  if campaign_code = .what_young_people_want then
    (df.map (fun r => rowSet r "age" (filter_ages_10_to_24 (rowGet r "age")))).filter
      (fun r => decide (rowGet r "age" ≠ Cell.nan))
  else
    df.map (fun r => rowSet r "age" (ageBucketCell (rowGet r "age")))

/-- First-seen deduplication (`drop_duplicates` / `unique` order). -/
def distinctAux {β : Type} [DecidableEq β] (seen : List β) : List β → List β
  | [] => []
  | a :: as =>
    if a ∈ seen then distinctAux seen as else a :: distinctAux (a :: seen) as

/-- First-seen distinct elements of a list. -/
def distinctL {β : Type} [DecidableEq β] (l : List β) : List β :=
  distinctAux [] l

/-- The ages facet (data_loader.py lines 189-192): distinct age values with
missing values dropped (`if age is not None`). -/
def agesFacet (df : List Row) : List String :=
  (distinctL (df.map (fun r => rowGet r "age"))).filterMap
    (fun c => match c with | Cell.s v => some v | _ => none)

/-- Removing the `UNCODABLE` responses (data_loader.py lines 194-200): one
filter per in-scope question code; the `isin` test is exact string equality,
so a missing canonical-code cell is kept. -/
def uncodableStep (qcodes : List QuestionCode) (df : List Row) : List Row :=
  qcodes.foldl
    (fun d q =>
      d.filter
        (fun r =>
          decide (rowGet r (get_canonical_code_col_name q) ≠ Cell.s "UNCODABLE")))
    df

/-- One column-rewriting pass on the canonical-code column of one question
code (`df[col] = df[col].apply(g)`). -/
def mapCanonPass (q : QuestionCode) (g : Cell → Cell) (df : List Row) : List Row :=
  df.map
    (fun r =>
      rowSet r (get_canonical_code_col_name q)
        (g (rowGet r (get_canonical_code_col_name q))))

/-- The `what_young_people_want` `ENVIRONMENT`→`SAFETY` remap applied to one
cell (`_map.get(x, x)`): only the string `ENVIRONMENT` is rewritten. -/
def envRemap : Cell → Cell
  | .s v => if v = "ENVIRONMENT" then .s "SAFETY" else .s v
  | c => c

/-- The remap pass of data_loader.py lines 202-211 (q1 only, one campaign). -/
def envStep (campaign_code : CampaignCode) (df : List Row) : List Row :=
  if campaign_code = .what_young_people_want then mapCanonPass .q1 envRemap df
  else df

/-- `"NOTRELATED" if x == "OTHERQUESTIONABLE" else x` applied to one cell. -/
def oqRemap (c : Cell) : Cell :=
  if c = Cell.s "OTHERQUESTIONABLE" then Cell.s "NOTRELATED" else c

/-- The rename pass of data_loader.py lines 213-219, one pass per question code. -/
def renameStep (qcodes : List QuestionCode) (df : List Row) : List Row :=
  qcodes.foldl (fun d q => mapCanonPass q oqRemap d) df

/-- Adding the top-level column for one row and question code (data_loader.py
lines 221-225): `get_top_level` raises unless the canonical-code cell holds a
string (`leaf_categories.split` on `NaN` raises). -/
def topLevelRow (mapping : List (String × String)) (q : QuestionCode)
    (row : Row) : Option Row :=
  match rowGet row (get_canonical_code_col_name q) with
  | .s v =>
    some (rowSet row (get_top_level_col_name q) (.s (get_top_level mapping v)))
  | _ => none

/-- The top-level pass over all in-scope question codes. -/
def topLevelStep (mapping : List (String × String)) (qcodes : List QuestionCode)
    (df : List Row) : Option (List Row) :=
  stepForQs (fun q d => listMapM (topLevelRow mapping q) d) qcodes df

/-- A `Country` value of the countries index (alpha-2 code, display name,
demonym, appended region names). -/
structure CountryEntry where
  alpha2_code : String
  name : String
  demonym : String
  regions : List String
  deriving DecidableEq

/-- Association-list assignment (`d[k] = v`): replace the first binding or
append, preserving dict insertion order. -/
def alSet {β : Type} : List (String × β) → String → β → List (String × β)
  | [], k, v => [(k, v)]
  | (k', v') :: rest, k, v =>
    if k' = k then (k, v) :: rest else (k', v') :: alSet rest k v

/-- `countries[alpha2_code].regions.append(...)`: raises `KeyError` when the
country was skipped while building the index. -/
def addRegion (countries : List (String × CountryEntry)) (code : String)
    (regionName : String) : Option (List (String × CountryEntry)) :=
  match countries.lookup code with
  | some entry =>
    some (alSet countries code { entry with regions := entry.regions ++ [regionName] })
  | none => none

/-- Building the countries index (data_loader.py lines 227-253): one
`Country` per distinct alpha-2 code, skipping codes absent from the reference
data with a warning; then appending a region per distinct truthy
`(alpha2country, region)` pair — where the dict lookup raises if that pair's
country was skipped. -/
def buildCountries (countriesData : List (String × CountryInfo))
    (df : List Row) : Option (List (String × CountryEntry)) :=
  let codes := distinctL (df.map (fun r => rowGet r "alpha2country"))
  let countries :=
    codes.foldl
      (fun acc c =>
        match c with
        | Cell.s code =>
          match countriesData.lookup code with
          | some info => alSet acc code ⟨code, info.name, info.demonym, []⟩
          | none => acc
        | _ => acc)
      []
  let pairs := distinctL (df.map (fun r => (rowGet r "alpha2country", rowGet r "region")))
  pairs.foldl
    (fun acc p =>
      match acc with
      | none => none
      | some cs =>
        if cellTruthy p.2 then
          match p.1, p.2 with
          | Cell.s code, Cell.s region => addRegion cs code region
          | _, _ => none
        else some cs)
    (some countries)

/-- The string cells of one column of the dataframe, in row order
(`value_counts` drops missing values). -/
def colStrings (df : List Row) (col : String) : List String :=
  df.filterMap (fun r => match rowGet r col with | Cell.s v => some v | _ => none)

/-- Insert into a list kept in descending-count order; ties keep the existing
element first (tie order among equal counts is not specified by the source's
`value_counts` and no theorem below depends on it). -/
def insertDesc (cnt : String → Nat) (a : String) : List String → List String
  | [] => [a]
  | b :: bs => if cnt b < cnt a then a :: b :: bs else b :: insertDesc cnt a bs

/-- `value_counts().index` of a list of observed string values: the distinct
values ordered by descending observed frequency. -/
def value_counts (vs : List String) : List String :=
  (distinctL vs).foldr (insertDesc (fun v => vs.count v)) []

/-- The genders facet (data_loader.py lines 258-265): only when `"gender"` is
among the responses-sample column ids, and skipping falsy values
(`if not gender: continue`). -/
def gendersFacet (column_ids : List String) (df : List Row) : List String :=
  if "gender" ∈ column_ids then
    (value_counts (colStrings df "gender")).filter (fun g => !g.isEmpty)
  else []

/-- The professions facet (data_loader.py lines 267-272): only when
`"profession"` is among the responses-sample column ids; no falsy skip. -/
def professionsFacet (column_ids : List String) (df : List Row) : List String :=
  if "profession" ∈ column_ids then value_counts (colStrings df "profession")
  else []

/-- Everything `load_campaign_data` stores into the campaign's CRUD store. -/
structure LoadResult where
  df : List Row
  ages : List String
  countries : List (String × CountryEntry)
  genders : List String
  professions : List String
  deriving DecidableEq

/-- `load_campaign_data` (data_loader.py lines 140-275), from the fetched raw
dataframe to the stored artifacts.  The per-campaign category mapping and the
responses-sample column ids are passed in (their producers are configuration
modules not under src/); `countriesData` is the static country reference.
`none` models an uncaught exception aborting the campaign's reload. -/
def load_campaign_data (campaign_code : CampaignCode)
    (mapping : List (String × String)) (column_ids : List String)
    (countriesData : List (String × CountryInfo)) (df0 : List Row) :
    Option LoadResult :=
  (populateStep campaign_code (get_campaign_q_codes campaign_code) df0).bind fun df1 =>
  (tokenizeStep (get_campaign_q_codes campaign_code) df1).bind fun df2 =>
  (canonicalCountryStep countriesData df2).bind fun df3 =>
  (topLevelStep mapping (get_campaign_q_codes campaign_code)
      (renameStep (get_campaign_q_codes campaign_code)
        (envStep campaign_code
          (uncodableStep (get_campaign_q_codes campaign_code)
            (ageStep campaign_code df3))))).bind fun df8 =>
  (buildCountries countriesData df8).bind fun countries =>
  some
    { df := df8
      ages := agesFacet (ageStep campaign_code df3)
      countries := countries
      genders := gendersFacet column_ids df8
      professions := professionsFacet column_ids df8 }

/-- One location of the coordinate-loading pass: the campaign country's
alpha-2 code and display name, and one region name. -/
structure LocEntry where
  alpha2 : String
  countryName : String
  regionName : String

/-- The coordinate cache: alpha-2 code → region name → coordinate.  The
coordinate payload type is abstract — the pass never computes on it. -/
abbrev Coords (α : Type) := List (String × List (String × α))

/-- Looking a (country, region) pair up in the coordinate cache. -/
def lookup2 {α : Type} (coords : Coords α) (cc region : String) : Option α :=
  (coords.lookup cc).bind (fun cmap => cmap.lookup region)

/-- Generic association-list assignment for the inner region map. -/
def alSetG {α : Type} : List (String × α) → String → α → List (String × α)
  | [], k, v => [(k, v)]
  | (k', v') :: rest, k, v =>
    if k' = k then (k, v) :: rest else (k', v') :: alSetG rest k v

/-- One iteration of the location loop of `load_coordinates` (data_loader.py
lines 393-414), continued on the looked-up country sub-dict: skip when the
sub-dict is truthy (nonempty) and already has the region; otherwise query the
geocoder, reset a falsy sub-dict to `{}`, and store the new coordinate.  The
second state component accumulates the (alpha-2 code, region) pairs for which
the geocoder was queried. -/
def processFound {α : Type} (geocoder : String → α)
    (st : Coords α × List (String × String)) (loc : LocEntry) :
    Option (List (String × α)) → Coords α × List (String × String)
  | some cmap =>
    if !cmap.isEmpty && (cmap.lookup loc.regionName).isSome then st
    else
      (alSetG (if cmap.isEmpty then alSetG st.1 loc.alpha2 [] else st.1) loc.alpha2
        (alSetG
          (((if cmap.isEmpty then alSetG st.1 loc.alpha2 [] else st.1).lookup
              loc.alpha2).getD [])
          loc.regionName (geocoder (loc.countryName ++ ", " ++ loc.regionName))),
       st.2 ++ [(loc.alpha2, loc.regionName)])
  | none =>
    (alSetG (alSetG st.1 loc.alpha2 []) loc.alpha2
      (alSetG (((alSetG st.1 loc.alpha2 []).lookup loc.alpha2).getD [])
        loc.regionName (geocoder (loc.countryName ++ ", " ++ loc.regionName))),
     st.2 ++ [(loc.alpha2, loc.regionName)])

/-- One iteration of the location loop: look the country up in the cache and
continue with `processFound`. -/
def processLocation {α : Type} (geocoder : String → α)
    (st : Coords α × List (String × String)) (loc : LocEntry) :
    Coords α × List (String × String) :=
  processFound geocoder st loc (st.1.lookup loc.alpha2)

/-- The new-coordinates pass of `load_coordinates` (data_loader.py lines
368-414) over the flattened location list of the focused-on-country
campaigns, starting from the persisted cache. -/
def load_coordinates_pass {α : Type} (geocoder : String → α)
    (coords0 : Coords α) (locs : List LocEntry) :
    Coords α × List (String × String) :=
  locs.foldl (processLocation geocoder) (coords0, [])


/-! Basic lemmas about rows and column names. -/

theorem rowGet_nil (c : String) : rowGet [] c = Cell.nan := rfl

theorem rowGet_cons (c₀ : String) (v₀ : Cell) (rest : Row) (c : String) :
    rowGet ((c₀, v₀) :: rest) c = if c = c₀ then v₀ else rowGet rest c := by
  by_cases h : c = c₀
  · subst h
    simp [rowGet, List.lookup]
  · have hb : (c == c₀) = false := beq_eq_false_iff_ne.mpr h
    simp [rowGet, List.lookup, hb, h]

theorem rowGet_rowSet_same (r : Row) (c : String) (v : Cell) :
    rowGet (rowSet r c v) c = v := by
  induction r with
  | nil => simp [rowSet, rowGet_cons, rowGet_nil]
  | cons p rest ih =>
    obtain ⟨c', v'⟩ := p
    by_cases h : c' = c
    · subst h
      simp [rowSet, rowGet_cons]
    · simp [rowSet, h, rowGet_cons, Ne.symm h, ih]

theorem rowGet_rowSet_ne (r : Row) (c c' : String) (v : Cell) (h : c' ≠ c) :
    rowGet (rowSet r c v) c' = rowGet r c' := by
  induction r with
  | nil => simp [rowSet, rowGet_cons, rowGet_nil, h]
  | cons p rest ih =>
    obtain ⟨c₀, v₀⟩ := p
    by_cases h₀ : c₀ = c
    · subst h₀
      simp [rowSet, rowGet_cons, h]
    · by_cases h₁ : c' = c₀
      · subst h₁
        simp [rowSet, h₀, rowGet_cons]
      · simp [rowSet, h₀, rowGet_cons, h₁, ih]

theorem canonical_col_inj (q q' : QuestionCode) :
    get_canonical_code_col_name q = get_canonical_code_col_name q' ↔ q = q' := by
  cases q <;> cases q' <;> decide

theorem tokenized_ne_lemmatized (q q' : QuestionCode) :
    get_tokenized_col_name q ≠ get_lemmatized_col_name q' := by
  cases q <;> cases q' <;> decide

theorem top_level_ne_canonical (q q' : QuestionCode) :
    get_top_level_col_name q ≠ get_canonical_code_col_name q' := by
  cases q <;> cases q' <;> decide

theorem age_ne_canonical (q : QuestionCode) :
    "age" ≠ get_canonical_code_col_name q := by
  cases q <;> decide

theorem age_ne_top_level (q : QuestionCode) :
    "age" ≠ get_top_level_col_name q := by
  cases q <;> decide

theorem lemmatized_ne_raw (q q' : QuestionCode) :
    get_lemmatized_col_name q ≠ get_raw_response_col_name q' := by
  cases q <;> cases q' <;> decide

theorem canonical_ne_raw (q q' : QuestionCode) :
    get_canonical_code_col_name q ≠ get_raw_response_col_name q' := by
  cases q <;> cases q' <;> decide

theorem original_language_ne_raw (q q' : QuestionCode) :
    get_original_language_col_name q ≠ get_raw_response_col_name q' := by
  cases q <;> cases q' <;> decide

/-! Lemmas about the fallible row-wise pass. -/

theorem listMapM_eq_none_of_mem {α β : Type} (f : α → Option β) {l : List α}
    {a : α} (ha : a ∈ l) (hf : f a = none) : listMapM f l = none := by
  induction l with
  | nil => cases ha
  | cons b bs ih =>
    rcases List.mem_cons.mp ha with h | h
    · subst h
      simp [listMapM, hf]
    · cases hb : f b with
      | none => simp [listMapM, hb]
      | some v => simp [listMapM, hb, ih h]

theorem listMapM_isSome_iff {α β : Type} (f : α → Option β) (l : List α) :
    (listMapM f l).isSome = true ↔ ∀ a ∈ l, (f a).isSome = true := by
  induction l with
  | nil => simp [listMapM]
  | cons b bs ih =>
    cases hb : f b with
    | none => simp [listMapM, hb]
    | some v =>
      cases hbs : listMapM f bs with
      | none =>
        simp only [listMapM, hb, hbs, Option.isSome_none, Bool.false_eq_true,
          false_iff]
        intro hall
        have := ih.mpr fun a ha => hall a (List.mem_cons_of_mem _ ha)
        simp [hbs] at this
      | some vs =>
        simp only [listMapM, hb, hbs, Option.isSome_some, true_iff,
          List.mem_cons]
        intro a ha
        rcases ha with h | h
        · subst h; simp [hb]
        · exact ih.mp (by simp [hbs]) a h

theorem mem_of_listMapM {α β : Type} (f : α → Option β) {l : List α}
    {l' : List β} (h : listMapM f l = some l') :
    ∀ b ∈ l', ∃ a ∈ l, f a = some b := by
  induction l generalizing l' with
  | nil =>
    simp only [listMapM, Option.some.injEq] at h
    subst h; simp
  | cons a as ih =>
    cases ha : f a with
    | none => simp [listMapM, ha] at h
    | some b0 =>
      cases has : listMapM f as with
      | none => simp [listMapM, ha, has] at h
      | some bs =>
        simp only [listMapM, ha, has, Option.some.injEq] at h
        subst h
        intro b hb
        rcases List.mem_cons.mp hb with h | h
        · exact ⟨a, List.mem_cons_self a as, h ▸ ha⟩
        · obtain ⟨a', ha', hfa'⟩ := ih has b h
          exact ⟨a', List.mem_cons_of_mem _ ha', hfa'⟩

theorem listMapM_surj {α β : Type} (f : α → Option β) {l : List α}
    {l' : List β} (h : listMapM f l = some l') :
    ∀ a ∈ l, ∃ b ∈ l', f a = some b := by
  induction l generalizing l' with
  | nil => simp
  | cons a as ih =>
    cases ha : f a with
    | none => simp [listMapM, ha] at h
    | some b0 =>
      cases has : listMapM f as with
      | none => simp [listMapM, ha, has] at h
      | some bs =>
        simp only [listMapM, ha, has, Option.some.injEq] at h
        subst h
        intro x hx
        rcases List.mem_cons.mp hx with h | h
        · exact ⟨b0, List.mem_cons_self _ _, h ▸ ha⟩
        · obtain ⟨b, hb, hfb⟩ := ih has x h
          exact ⟨b, List.mem_cons_of_mem _ hb, hfb⟩

/-! Lemmas about the canonical-code passes of the pipeline. -/

theorem mem_uncodableStep {qcodes : List QuestionCode} {d : List Row} {r : Row}
    (h : r ∈ uncodableStep qcodes d) :
    r ∈ d ∧ ∀ q ∈ qcodes,
      rowGet r (get_canonical_code_col_name q) ≠ Cell.s "UNCODABLE" := by
  induction qcodes generalizing d with
  | nil => exact ⟨h, by simp⟩
  | cons q0 rest ih =>
    have h' : r ∈ uncodableStep rest
        (d.filter (fun r =>
          decide (rowGet r (get_canonical_code_col_name q0) ≠ Cell.s "UNCODABLE"))) := h
    obtain ⟨hmem, hrest⟩ := ih h'
    have := List.mem_filter.mp hmem
    refine ⟨this.1, ?_⟩
    intro q hq
    rcases List.mem_cons.mp hq with h | h
    · subst h
      exact of_decide_eq_true this.2
    · exact hrest q h

theorem mem_mapCanonPass {q0 : QuestionCode} {g : Cell → Cell} {d : List Row}
    {r' : Row} (h : r' ∈ mapCanonPass q0 g d) :
    ∃ r ∈ d, r' = rowSet r (get_canonical_code_col_name q0)
      (g (rowGet r (get_canonical_code_col_name q0))) := by
  obtain ⟨r, hr, hr'⟩ := List.mem_map.mp h
  exact ⟨r, hr, hr'.symm⟩

theorem rowGet_canon_mapCanonPass {q0 : QuestionCode} {g : Cell → Cell}
    {r : Row} (q : QuestionCode) :
    rowGet (rowSet r (get_canonical_code_col_name q0)
        (g (rowGet r (get_canonical_code_col_name q0))))
      (get_canonical_code_col_name q) =
      if q = q0 then g (rowGet r (get_canonical_code_col_name q0))
      else rowGet r (get_canonical_code_col_name q) := by
  by_cases h : q = q0
  · subst h
    simp [rowGet_rowSet_same]
  · rw [if_neg h, rowGet_rowSet_ne]
    exact fun hc => h ((canonical_col_inj q q0).mp hc)

theorem mapCanonPass_pres (P : QuestionCode → Cell → Prop) (q0 : QuestionCode)
    (g : Cell → Cell) (d : List Row)
    (hg : ∀ q c, P q c → P q (g c))
    (hd : ∀ r ∈ d, ∀ q, P q (rowGet r (get_canonical_code_col_name q))) :
    ∀ r' ∈ mapCanonPass q0 g d, ∀ q, P q (rowGet r' (get_canonical_code_col_name q)) := by
  intro r' hr' q
  obtain ⟨r, hr, rfl⟩ := mem_mapCanonPass hr'
  rw [rowGet_canon_mapCanonPass]
  by_cases h : q = q0
  · rw [if_pos h]
    subst h
    exact hg q _ (hd r hr q)
  · rw [if_neg h]
    exact hd r hr q

theorem renameStep_pres (P : QuestionCode → Cell → Prop)
    (hg : ∀ q c, P q c → P q (oqRemap c)) (qcodes : List QuestionCode)
    (d : List Row)
    (hd : ∀ r ∈ d, ∀ q, P q (rowGet r (get_canonical_code_col_name q))) :
    ∀ r' ∈ renameStep qcodes d, ∀ q, P q (rowGet r' (get_canonical_code_col_name q)) := by
  induction qcodes generalizing d with
  | nil => exact hd
  | cons q0 rest ih =>
    intro r' hr'
    exact ih (mapCanonPass q0 oqRemap d)
      (mapCanonPass_pres P q0 oqRemap d hg hd) r' hr'

theorem oqRemap_ne_OQ (c : Cell) : oqRemap c ≠ Cell.s "OTHERQUESTIONABLE" := by
  unfold oqRemap
  by_cases h : c = Cell.s "OTHERQUESTIONABLE"
  · simp [h]
  · simp [h]

theorem oqRemap_pres_ne_UC (c : Cell) (h : c ≠ Cell.s "UNCODABLE") :
    oqRemap c ≠ Cell.s "UNCODABLE" := by
  unfold oqRemap
  by_cases hc : c = Cell.s "OTHERQUESTIONABLE"
  · simp [hc]
  · simpa [hc] using h

theorem envRemap_pres_ne_UC (c : Cell) (h : c ≠ Cell.s "UNCODABLE") :
    envRemap c ≠ Cell.s "UNCODABLE" := by
  cases c with
  | s v =>
    by_cases hv : v = "ENVIRONMENT"
    · simp [envRemap, hv]
    · simpa [envRemap, hv] using h
  | toks v => exact h
  | json v => exact h
  | nan => exact h

theorem renameStep_est (qcodes : List QuestionCode) (d : List Row) :
    ∀ r' ∈ renameStep qcodes d, ∀ q ∈ qcodes,
      rowGet r' (get_canonical_code_col_name q) ≠ Cell.s "OTHERQUESTIONABLE" := by
  induction qcodes generalizing d with
  | nil => simp
  | cons q0 rest ih =>
    intro r' hr' q hq
    have hstep : renameStep (q0 :: rest) d =
        renameStep rest (mapCanonPass q0 oqRemap d) := rfl
    rw [hstep] at hr'
    rcases List.mem_cons.mp hq with h | h
    · subst h
      by_cases hmem : q ∈ rest
      · exact ih (mapCanonPass q oqRemap d) r' hr' q hmem
      · have := renameStep_pres
          (fun q' c => q' = q → c ≠ Cell.s "OTHERQUESTIONABLE")
          (fun q' c _ _ => oqRemap_ne_OQ c) rest (mapCanonPass q oqRemap d)
          (fun r hr q' => by
            intro hq'
            subst hq'
            obtain ⟨r₀, hr₀, rfl⟩ := mem_mapCanonPass hr
            rw [rowGet_canon_mapCanonPass, if_pos rfl]
            exact oqRemap_ne_OQ _)
          r' hr'
        exact this q rfl
    · exact ih (mapCanonPass q0 oqRemap d) r' hr' q h

theorem envStep_pres (P : QuestionCode → Cell → Prop)
    (hg : ∀ q c, P q c → P q (envRemap c)) (campaign_code : CampaignCode)
    (d : List Row)
    (hd : ∀ r ∈ d, ∀ q, P q (rowGet r (get_canonical_code_col_name q))) :
    ∀ r' ∈ envStep campaign_code d, ∀ q,
      P q (rowGet r' (get_canonical_code_col_name q)) := by
  unfold envStep
  by_cases h : campaign_code = .what_young_people_want
  · rw [if_pos h]
    exact mapCanonPass_pres P .q1 envRemap d hg hd
  · rw [if_neg h]
    exact hd

theorem topLevelRow_canon {mapping : List (String × String)} {q0 : QuestionCode}
    {r r' : Row} (h : topLevelRow mapping q0 r = some r') (q : QuestionCode) :
    rowGet r' (get_canonical_code_col_name q) =
      rowGet r (get_canonical_code_col_name q) := by
  unfold topLevelRow at h
  cases hc : rowGet r (get_canonical_code_col_name q0) with
  | s v =>
    rw [hc] at h
    cases h
    rw [rowGet_rowSet_ne]
    exact (top_level_ne_canonical q0 q).symm
  | toks v => rw [hc] at h; cases h
  | json v => rw [hc] at h; cases h
  | nan => rw [hc] at h; cases h

theorem topLevelStep_pres (P : QuestionCode → Cell → Prop)
    (mapping : List (String × String)) (qcodes : List QuestionCode)
    {d d' : List Row} (h : topLevelStep mapping qcodes d = some d')
    (hd : ∀ r ∈ d, ∀ q, P q (rowGet r (get_canonical_code_col_name q))) :
    ∀ r' ∈ d', ∀ q, P q (rowGet r' (get_canonical_code_col_name q)) := by
  induction qcodes generalizing d with
  | nil =>
    cases h
    exact hd
  | cons q0 rest ih =>
    have hstep : topLevelStep mapping (q0 :: rest) d =
        match listMapM (topLevelRow mapping q0) d with
        | none => none
        | some d1 => topLevelStep mapping rest d1 := rfl
    rw [hstep] at h
    cases hm : listMapM (topLevelRow mapping q0) d with
    | none => rw [hm] at h; cases h
    | some d1 =>
      rw [hm] at h
      refine ih h ?_
      intro r1 hr1 q
      obtain ⟨r, hr, hrow⟩ := mem_of_listMapM _ hm r1 hr1
      rw [topLevelRow_canon hrow q]
      exact hd r hr q

/-! Destructuring a successful load. -/

theorem load_campaign_data_shape {cc : CampaignCode} {m : List (String × String)}
    {ids : List String} {cd : List (String × CountryInfo)} {df : List Row}
    {res : LoadResult} (h : load_campaign_data cc m ids cd df = some res) :
    ∃ d3, topLevelStep m (get_campaign_q_codes cc)
        (renameStep (get_campaign_q_codes cc)
          (envStep cc (uncodableStep (get_campaign_q_codes cc) (ageStep cc d3)))) =
      some res.df := by
  unfold load_campaign_data at h
  rcases Option.bind_eq_some.mp h with ⟨df1, h1, h⟩
  rcases Option.bind_eq_some.mp h with ⟨df2, h2, h⟩
  rcases Option.bind_eq_some.mp h with ⟨df3, h3, h⟩
  rcases Option.bind_eq_some.mp h with ⟨df8, h8, h⟩
  rcases Option.bind_eq_some.mp h with ⟨countries, hcs, h⟩
  obtain rfl : _ = res := Option.some.inj h
  exact ⟨df3, h8⟩

/-! Scenario inputs shared by several claims. -/

/-- A country reference holding only the United States. -/
def cdUS : List (String × CountryInfo) := [("US", ⟨"United States", "American"⟩)]

/-- A well-formed raw row whose q1 canonical code is `OTHERQUESTIONABLE`. -/
def rowOQ : Row :=
  [("q1_canonical_code", .s "OTHERQUESTIONABLE"), ("q1_lemmatized", .s "foo bar"),
   ("alpha2country", .s "US"), ("age", .s "30"), ("region", .s "CA"),
   ("gender", .s "male"), ("profession", .s "student"),
   ("additional_fields", .json (some []))]

/-- A well-formed raw row whose q1 canonical code is `UNCODABLE`. -/
def rowUC : Row :=
  [("q1_canonical_code", .s "UNCODABLE"), ("q1_lemmatized", .s "baz"),
   ("alpha2country", .s "US"), ("age", .s "17"), ("region", .s "CA"),
   ("gender", .s "female"), ("profession", .s "nurse"),
   ("additional_fields", .json (some []))]

/-- The stored artifacts of the C1 end-to-end scenario. -/
def scenarioResult : LoadResult :=
  (load_campaign_data .other [] [] cdUS [rowOQ, rowUC]).getD ⟨[], [], [], [], []⟩

/-- Claim C1: after any successful `load_campaign_data`, no stored row has
canonical code `UNCODABLE` or `OTHERQUESTIONABLE` for any in-scope question
code; and in the two-row scenario (one `OTHERQUESTIONABLE` row, one
`UNCODABLE` row) exactly one row remains and its canonical code is
`NOTRELATED`. -/
theorem claim1_uncodable_removed_oq_renamed :
    (∀ (cc : CampaignCode) (m : List (String × String)) (ids : List String)
       (cd : List (String × CountryInfo)) (df : List Row) (res : LoadResult),
       load_campaign_data cc m ids cd df = some res →
       ∀ q ∈ get_campaign_q_codes cc, ∀ r ∈ res.df,
         rowGet r (get_canonical_code_col_name q) ≠ Cell.s "UNCODABLE" ∧
         rowGet r (get_canonical_code_col_name q) ≠ Cell.s "OTHERQUESTIONABLE") ∧
    (load_campaign_data .other [] [] cdUS [rowOQ, rowUC]).map
        (fun res => res.df.map (fun r => rowGet r (get_canonical_code_col_name .q1))) =
      some [Cell.s "NOTRELATED"] := by
  constructor
  · intro cc m ids cd df res h q hq r hr
    obtain ⟨d3, hstep⟩ := load_campaign_data_shape h
    have base : ∀ r0 ∈ uncodableStep (get_campaign_q_codes cc) (ageStep cc d3), ∀ q',
        q' ∈ get_campaign_q_codes cc →
          rowGet r0 (get_canonical_code_col_name q') ≠ Cell.s "UNCODABLE" :=
      fun r0 hr0 q' hq' => (mem_uncodableStep hr0).2 q' hq'
    have henv := envStep_pres
      (fun q' c => q' ∈ get_campaign_q_codes cc → c ≠ Cell.s "UNCODABLE")
      (fun _ c hc hq' => envRemap_pres_ne_UC c (hc hq')) cc _ base
    have hren := renameStep_pres
      (fun q' c => q' ∈ get_campaign_q_codes cc → c ≠ Cell.s "UNCODABLE")
      (fun _ c hc hq' => oqRemap_pres_ne_UC c (hc hq'))
      (get_campaign_q_codes cc) _ henv
    have hoq := renameStep_est (get_campaign_q_codes cc)
      (envStep cc (uncodableStep (get_campaign_q_codes cc) (ageStep cc d3)))
    have hcomb : ∀ r0 ∈ renameStep (get_campaign_q_codes cc)
        (envStep cc (uncodableStep (get_campaign_q_codes cc) (ageStep cc d3))), ∀ q',
        q' ∈ get_campaign_q_codes cc →
          rowGet r0 (get_canonical_code_col_name q') ≠ Cell.s "UNCODABLE" ∧
          rowGet r0 (get_canonical_code_col_name q') ≠ Cell.s "OTHERQUESTIONABLE" :=
      fun r0 hr0 q' hq' => ⟨hren r0 hr0 q' hq', hoq r0 hr0 q' hq'⟩
    exact topLevelStep_pres
      (fun q' c => q' ∈ get_campaign_q_codes cc →
        c ≠ Cell.s "UNCODABLE" ∧ c ≠ Cell.s "OTHERQUESTIONABLE")
      m (get_campaign_q_codes cc) hstep hcomb r hr q hq
  · decide

/-- Witness for C1: the universally quantified part applied to the concrete
two-row scenario and its surviving row. -/
theorem claim1_witness :
    rowGet (scenarioResult.df.headD []) (get_canonical_code_col_name .q1) ≠
        Cell.s "UNCODABLE" ∧
      rowGet (scenarioResult.df.headD []) (get_canonical_code_col_name .q1) ≠
        Cell.s "OTHERQUESTIONABLE" :=
  claim1_uncodable_removed_oq_renamed.1 .other [] [] cdUS [rowOQ, rowUC]
    scenarioResult (by decide) .q1 (by decide)
    (scenarioResult.df.headD []) (by decide)

/-! Claim C3: malformed additional-fields payloads. -/

/-- A country reference holding only Mexico. -/
def cdMX : List (String × CountryInfo) := [("MX", ⟨"Mexico", "Mexican"⟩)]

/-- A well-formed Mexico row whose additional fields carry all q2 data. -/
def rowMexGood : Row :=
  [("q1_canonical_code", .s "CAT"), ("q1_lemmatized", .s "hola"),
   ("alpha2country", .s "MX"), ("age", .s "30"), ("region", .s "Oaxaca"),
   ("additional_fields", .json (some [("q2_response_original_text", "hola"),
      ("q2_response_english_text", "hello"),
      ("q2_response_lemmatized_text", "hola"),
      ("q2_response_nlu_category", "CAT2")]))]

/-- A Mexico row whose additional-fields payload does not parse. -/
def rowMexBad : Row :=
  [("q1_canonical_code", .s "CAT"), ("q1_lemmatized", .s "adios"),
   ("alpha2country", .s "MX"), ("age", .s "25"), ("region", .s "Oaxaca"),
   ("additional_fields", .json none)]

/-- Counterexample for C3 as stated: with one well-formed row and one row
whose additional-fields payload is non-parseable, the whole campaign reload
aborts instead of completing with the bad row skipped. -/
theorem claim3_cex :
    load_campaign_data .economic_empowerment_mexico [] [] cdMX
      [rowMexGood, rowMexBad] = none := by decide

/-- Claim C3 (amended): for a campaign with additional questions, a single
non-parseable additional-fields payload aborts the whole reload; for every
other campaign the payload is never parsed by the additional-question pass. -/
theorem claim3_malformed_payload_aborts :
    (∀ (m : List (String × String)) (ids : List String)
       (cd : List (String × CountryInfo)) (df : List Row) (r : Row),
       r ∈ df → jsonLoads (rowGet r "additional_fields") = none →
       load_campaign_data .economic_empowerment_mexico m ids cd df = none) ∧
    (∀ (cc : CampaignCode) (df : List Row), cc ≠ .economic_empowerment_mexico →
       populateStep cc (get_campaign_q_codes cc) df = some df) := by
  constructor
  · intro m ids cd df r hr hbad
    have hnone : populate_additional_q_columns .economic_empowerment_mexico .q2 r = none := by
      unfold populate_additional_q_columns
      rw [hbad]
    have hm := listMapM_eq_none_of_mem
      (populate_additional_q_columns .economic_empowerment_mexico .q2) hr hnone
    have hpop : populateStep .economic_empowerment_mexico
        (get_campaign_q_codes .economic_empowerment_mexico) df = none := by
      simp [populateStep, get_campaign_q_codes, stepForQs, hm]
    unfold load_campaign_data
    rw [hpop]
    rfl
  · intro cc df hcc
    have hq : get_campaign_q_codes cc = [.q1] := by
      unfold get_campaign_q_codes
      rw [if_neg hcc]
    rw [populateStep, hq]
    simp [stepForQs]

/-- Witness for C3: the amended statement applied to a one-row dataframe with
a malformed payload. -/
theorem claim3_witness :
    load_campaign_data .economic_empowerment_mexico [] [] cdMX [rowMexBad] = none :=
  claim3_malformed_payload_aborts.1 [] [] cdMX [rowMexBad] rowMexBad
    (by decide) (by decide)

/-! Claim C4: country codes absent from the reference data. -/

/-- A well-formed raw row whose country code `XX` has no reference entry. -/
def rowXX : Row :=
  [("q1_canonical_code", .s "CAT"), ("q1_lemmatized", .s "x y"),
   ("alpha2country", .s "XX"), ("age", .s "30"), ("region", .nan),
   ("additional_fields", .json (some []))]

/-- Claim C4 (code bug): a row whose alpha-2 code is absent from the country
reference makes `load_campaign_data` abort at the `canonical_country` map
(`COUNTRIES_DATA[x]` raises `KeyError`), even though the countries-index loop
further down would have skipped the code with a warning and no error —
`buildCountries` on the same data yields an empty index without failing. -/
theorem claim4_missing_country_aborts_load :
    load_campaign_data .other [] [] cdUS [rowXX] = none ∧
    buildCountries cdUS [rowXX] = some [] ∧
    cdUS.lookup "XX" = none := by decide

/-! Claim C5: totality of the tokenization pass. -/

theorem tokenizeRow_isSome (q : QuestionCode) (r : Row) :
    (tokenizeRow q r).isSome = true ↔
      ∃ t, rowGet r (get_lemmatized_col_name q) = Cell.s t := by
  unfold tokenizeRow
  cases h : rowGet r (get_lemmatized_col_name q) <;> simp [h]

theorem tokenizeRow_lem {q0 : QuestionCode} {r r' : Row}
    (h : tokenizeRow q0 r = some r') (q : QuestionCode) :
    rowGet r' (get_lemmatized_col_name q) = rowGet r (get_lemmatized_col_name q) := by
  unfold tokenizeRow at h
  cases hc : rowGet r (get_lemmatized_col_name q0) with
  | s v =>
    rw [hc] at h
    cases h
    rw [rowGet_rowSet_ne]
    exact (tokenized_ne_lemmatized q0 q).symm
  | toks v => rw [hc] at h; cases h
  | json v => rw [hc] at h; cases h
  | nan => rw [hc] at h; cases h

/-- Claim C5 (amended): the tokenization pass succeeds exactly when every row
holds a string in the lemmatized column of every in-scope question code; a
row whose lemmatized cell is missing (as additional-question extraction
leaves it for question codes after q1) makes `x.split(" ")` raise and the
whole pass — hence the campaign reload — abort. -/
theorem claim5_tokenization_totality (qcodes : List QuestionCode) (df : List Row) :
    (tokenizeStep qcodes df).isSome = true ↔
      ∀ r ∈ df, ∀ q ∈ qcodes, ∃ t, rowGet r (get_lemmatized_col_name q) = Cell.s t := by
  induction qcodes generalizing df with
  | nil => simp [tokenizeStep, stepForQs]
  | cons q0 rest ih =>
    have hdef : tokenizeStep (q0 :: rest) df =
        match listMapM (tokenizeRow q0) df with
        | none => none
        | some d1 => tokenizeStep rest d1 := rfl
    rw [hdef]
    cases hm : listMapM (tokenizeRow q0) df with
    | none =>
      simp only [Option.isSome_none, Bool.false_eq_true, false_iff]
      intro hall
      have hsome : (listMapM (tokenizeRow q0) df).isSome = true :=
        (listMapM_isSome_iff _ _).mpr
          (fun r hr => (tokenizeRow_isSome q0 r).mpr
            (hall r hr q0 (List.mem_cons_self _ _)))
      rw [hm] at hsome
      simp at hsome
    | some d1 =>
      rw [ih d1]
      constructor
      · intro hall r hr q hq
        rcases List.mem_cons.mp hq with h | h
        · subst h
          have hsome : (tokenizeRow q r).isSome = true :=
            (listMapM_isSome_iff _ _).mp (by simp [hm]) r hr
          exact (tokenizeRow_isSome q r).mp hsome
        · obtain ⟨b, hb, hfb⟩ := listMapM_surj _ hm r hr
          have := hall b hb q h
          rwa [tokenizeRow_lem hfb q] at this
      · intro hall r1 hr1 q hq
        obtain ⟨r, hr, hfr⟩ := mem_of_listMapM _ hm r1 hr1
        rw [tokenizeRow_lem hfr q]
        exact hall r hr q (List.mem_cons_of_mem _ hq)

/-- A Mexico row with a parseable payload that lacks the q2 lemmatized text. -/
def rowMexNoLem : Row :=
  [("q1_canonical_code", .s "CAT"), ("q1_lemmatized", .s "adios"),
   ("alpha2country", .s "MX"), ("age", .s "25"), ("region", .s "Oaxaca"),
   ("additional_fields", .json (some [("q2_response_original_text", "adios")]))]

/-- Counterexample for C5 as stated: a row with absent q2 lemmatized text does
not get its tokenized column left unset — the tokenization pass raises and the
whole campaign reload aborts. -/
theorem claim5_cex :
    load_campaign_data .economic_empowerment_mexico [] [] cdMX
      [rowMexGood, rowMexNoLem] = none := by decide

/-- Witness for C5: the amended equivalence applied to a concrete pass that
succeeds. -/
theorem claim5_witness :
    (tokenizeStep [QuestionCode.q1] [rowMexGood]).isSome = true := by
  apply (claim5_tokenization_totality [QuestionCode.q1] [rowMexGood]).mpr
  intro r hr q hq
  have hr' : r = rowMexGood := by simpa using hr
  have hq' : q = QuestionCode.q1 := by simpa using hq
  subst hr'
  subst hq'
  exact ⟨"hola", by decide⟩

/-! Claim C10: the age pass, per campaign. -/

theorem mapCanonPass_pres_col (q0 : QuestionCode) (g : Cell → Cell)
    (d : List Row) (col : String)
    (hcol : ∀ q, col ≠ get_canonical_code_col_name q) (P : Cell → Prop)
    (hd : ∀ r ∈ d, P (rowGet r col)) :
    ∀ r' ∈ mapCanonPass q0 g d, P (rowGet r' col) := by
  intro r' hr'
  obtain ⟨r, hr, rfl⟩ := mem_mapCanonPass hr'
  rw [rowGet_rowSet_ne _ _ _ _ (hcol q0)]
  exact hd r hr

theorem renameStep_pres_col (qcodes : List QuestionCode) (d : List Row)
    (col : String) (hcol : ∀ q, col ≠ get_canonical_code_col_name q)
    (P : Cell → Prop) (hd : ∀ r ∈ d, P (rowGet r col)) :
    ∀ r' ∈ renameStep qcodes d, P (rowGet r' col) := by
  induction qcodes generalizing d with
  | nil => exact hd
  | cons q0 rest ih =>
    exact ih (mapCanonPass q0 oqRemap d)
      (mapCanonPass_pres_col q0 oqRemap d col hcol P hd)

theorem envStep_pres_col (campaign_code : CampaignCode) (d : List Row)
    (col : String) (hcol : ∀ q, col ≠ get_canonical_code_col_name q)
    (P : Cell → Prop) (hd : ∀ r ∈ d, P (rowGet r col)) :
    ∀ r' ∈ envStep campaign_code d, P (rowGet r' col) := by
  unfold envStep
  by_cases h : campaign_code = .what_young_people_want
  · rw [if_pos h]
    exact mapCanonPass_pres_col .q1 envRemap d col hcol P hd
  · rw [if_neg h]
    exact hd

theorem topLevelRow_col {mapping : List (String × String)} {q0 : QuestionCode}
    {r r' : Row} (h : topLevelRow mapping q0 r = some r') (col : String)
    (hcol : col ≠ get_top_level_col_name q0) :
    rowGet r' col = rowGet r col := by
  unfold topLevelRow at h
  cases hc : rowGet r (get_canonical_code_col_name q0) with
  | s v =>
    rw [hc] at h
    cases h
    rw [rowGet_rowSet_ne _ _ _ _ hcol]
  | toks v => rw [hc] at h; cases h
  | json v => rw [hc] at h; cases h
  | nan => rw [hc] at h; cases h

theorem topLevelStep_pres_col (mapping : List (String × String))
    (qcodes : List QuestionCode) {d d' : List Row}
    (h : topLevelStep mapping qcodes d = some d') (col : String)
    (hcol : ∀ q, col ≠ get_top_level_col_name q) (P : Cell → Prop)
    (hd : ∀ r ∈ d, P (rowGet r col)) :
    ∀ r' ∈ d', P (rowGet r' col) := by
  induction qcodes generalizing d with
  | nil =>
    cases h
    exact hd
  | cons q0 rest ih =>
    have hstep : topLevelStep mapping (q0 :: rest) d =
        match listMapM (topLevelRow mapping q0) d with
        | none => none
        | some d1 => topLevelStep mapping rest d1 := rfl
    rw [hstep] at h
    cases hm : listMapM (topLevelRow mapping q0) d with
    | none => rw [hm] at h; cases h
    | some d1 =>
      rw [hm] at h
      refine ih h ?_
      intro r1 hr1
      obtain ⟨r, hr, hrow⟩ := mem_of_listMapM _ hm r1 hr1
      rw [topLevelRow_col hrow col (hcol q0)]
      exact hd r hr

theorem ageStep_wywp (df : List Row) :
    ∀ r ∈ ageStep .what_young_people_want df, ∃ v,
      rowGet r "age" = Cell.s v ∧
      (pyIsNumeric v && decide (10 ≤ pyInt v) && decide (pyInt v ≤ 24)) = true := by
  intro r hr
  unfold ageStep at hr
  rw [if_pos rfl] at hr
  obtain ⟨hmem, hcond⟩ := List.mem_filter.mp hr
  obtain ⟨r0, hr0, rfl⟩ := List.mem_map.mp hmem
  rw [rowGet_rowSet_same] at hcond ⊢
  cases hc : rowGet r0 "age" with
  | s a =>
    rw [hc] at hcond
    simp only [filter_ages_10_to_24] at hcond ⊢
    by_cases hb : (pyIsNumeric a && decide (10 ≤ pyInt a) && decide (pyInt a ≤ 24)) = true
    · rw [if_pos hb]
      exact ⟨a, rfl, hb⟩
    · simp only [if_neg hb] at hcond
      simp at hcond
  | toks v => rw [hc] at hcond; simp [filter_ages_10_to_24] at hcond
  | json v => rw [hc] at hcond; simp [filter_ages_10_to_24] at hcond
  | nan => rw [hc] at hcond; simp [filter_ages_10_to_24] at hcond

/-- Claim C10: `what_young_people_want` maps every non-numeric age string to
`NaN` and drops those rows — every stored row of that campaign has a numeric
age string in [10, 24] — while every other campaign buckets ages in place,
keeps all rows, and passes non-numeric age strings through unchanged. -/
theorem claim10_wywp_nonnumeric_age_dropped :
    (∀ v : String, pyIsNumeric v = false →
       filter_ages_10_to_24 (Cell.s v) = Cell.nan) ∧
    (∀ (m : List (String × String)) (ids : List String)
       (cd : List (String × CountryInfo)) (df : List Row) (res : LoadResult),
       load_campaign_data .what_young_people_want m ids cd df = some res →
       ∀ r ∈ res.df, ∃ v, rowGet r "age" = Cell.s v ∧ pyIsNumeric v = true ∧
         10 ≤ pyInt v ∧ pyInt v ≤ 24) ∧
    (∀ (cc : CampaignCode) (df : List Row), cc ≠ .what_young_people_want →
       ageStep cc df =
         df.map (fun r => rowSet r "age" (ageBucketCell (rowGet r "age"))) ∧
       (ageStep cc df).length = df.length) ∧
    (∀ v : String, pyIsNumeric v = false → ageBucketCell (Cell.s v) = Cell.s v) := by
  refine ⟨?_, ?_, ?_, ?_⟩
  · intro v hv
    simp [filter_ages_10_to_24, hv]
  · intro m ids cd df res h r hr
    obtain ⟨d3, hstep⟩ := load_campaign_data_shape h
    have base := ageStep_wywp d3
    have h1 : ∀ r0 ∈ uncodableStep (get_campaign_q_codes .what_young_people_want)
        (ageStep .what_young_people_want d3), ∃ v,
        rowGet r0 "age" = Cell.s v ∧
        (pyIsNumeric v && decide (10 ≤ pyInt v) && decide (pyInt v ≤ 24)) = true :=
      fun r0 hr0 => base r0 (mem_uncodableStep hr0).1
    have h2 := envStep_pres_col .what_young_people_want _ "age" age_ne_canonical
      (fun c => ∃ v, c = Cell.s v ∧
        (pyIsNumeric v && decide (10 ≤ pyInt v) && decide (pyInt v ≤ 24)) = true) h1
    have h3 := renameStep_pres_col (get_campaign_q_codes .what_young_people_want) _
      "age" age_ne_canonical
      (fun c => ∃ v, c = Cell.s v ∧
        (pyIsNumeric v && decide (10 ≤ pyInt v) && decide (pyInt v ≤ 24)) = true) h2
    have h4 := topLevelStep_pres_col m (get_campaign_q_codes .what_young_people_want)
      hstep "age" age_ne_top_level
      (fun c => ∃ v, c = Cell.s v ∧
        (pyIsNumeric v && decide (10 ≤ pyInt v) && decide (pyInt v ≤ 24)) = true) h3
    obtain ⟨v, hv, hcond⟩ := h4 r hr
    rw [Bool.and_assoc] at hcond
    obtain ⟨hnum, hrange⟩ := Bool.and_eq_true_iff.mp hcond
    obtain ⟨h10, h24⟩ := Bool.and_eq_true_iff.mp hrange
    exact ⟨v, hv, hnum, of_decide_eq_true h10, of_decide_eq_true h24⟩
  · intro cc df hcc
    unfold ageStep
    rw [if_neg hcc]
    exact ⟨rfl, by rw [List.length_map]⟩
  · intro v hv
    simp [ageBucketCell, get_age_bucket, hv]

/-- A `what_young_people_want` row with numeric age 17. -/
def rowY17 : Row :=
  [("q1_canonical_code", .s "ENVIRONMENT"), ("q1_lemmatized", .s "safe city"),
   ("alpha2country", .s "US"), ("age", .s "17"), ("region", .s "CA"),
   ("additional_fields", .json (some []))]

/-- A `what_young_people_want` row with a non-numeric age string. -/
def rowYText : Row :=
  [("q1_canonical_code", .s "CAT"), ("q1_lemmatized", .s "more jobs"),
   ("alpha2country", .s "US"), ("age", .s "prefer not to say"), ("region", .s "CA"),
   ("additional_fields", .json (some []))]

/-- The stored artifacts of the C10 `what_young_people_want` scenario. -/
def wywpResult : LoadResult :=
  (load_campaign_data .what_young_people_want [] [] cdUS [rowY17, rowYText]).getD
    ⟨[], [], [], [], []⟩

/-- Witness for C10: all four parts applied at concrete inputs — the
non-numeric-age row is gone from the stored scenario dataframe, and the
non-filtering campaigns keep rows and pass non-numeric ages through. -/
theorem claim10_witness :
    filter_ages_10_to_24 (Cell.s "prefer not to say") = Cell.nan ∧
    rowGet (wywpResult.df.headD []) "age" ≠ Cell.nan ∧
    (ageStep CampaignCode.other [rowOQ] =
        [rowOQ].map (fun r => rowSet r "age" (ageBucketCell (rowGet r "age"))) ∧
      (ageStep CampaignCode.other [rowOQ]).length = [rowOQ].length) ∧
    ageBucketCell (Cell.s "prefer not to say") = Cell.s "prefer not to say" :=
  ⟨claim10_wywp_nonnumeric_age_dropped.1 "prefer not to say" (by decide),
   by
    obtain ⟨v, hv, -, -, -⟩ :=
      claim10_wywp_nonnumeric_age_dropped.2.1 [] [] cdUS [rowY17, rowYText]
        wywpResult (by decide) (wywpResult.df.headD []) (by decide)
    rw [hv]
    exact fun hcontra => Cell.noConfusion hcontra,
   claim10_wywp_nonnumeric_age_dropped.2.2.1 CampaignCode.other [rowOQ] (by decide),
   claim10_wywp_nonnumeric_age_dropped.2.2.2 "prefer not to say" (by decide)⟩

/-! Claim C6: the age buckets. -/

theorem ageBucketOfInt_55 (n : Int) (h : 55 ≤ n) : ageBucketOfInt n = "55+" := by
  unfold ageBucketOfInt
  rw [if_pos h]

theorem ageBucketOfInt_15_19 (n : Int) (h15 : 15 ≤ n) (h19 : n ≤ 19) :
    ageBucketOfInt n = "15-19" := by
  unfold ageBucketOfInt
  rw [if_neg (by omega), if_neg (by omega), if_neg (by omega), if_neg (by omega),
    if_neg (by omega), if_pos (by omega)]

theorem ageBucketOfInt_NA (n : Int) (h : n < 15) : ageBucketOfInt n = "N/A" := by
  unfold ageBucketOfInt
  rw [if_neg (by omega), if_neg (by omega), if_neg (by omega), if_neg (by omega),
    if_neg (by omega), if_neg (by omega)]

/-- Claim C6: for `get_age_bucket`, every numeric age ≥ 55 (int or numeric
string) yields `"55+"`, every numeric age in [15, 19] yields `"15-19"`,
every numeric age in [0, 15) yields `"N/A"`, and every non-numeric string is
returned unchanged. -/
theorem claim6_age_bucket_ranges :
    (∀ n : Int, 55 ≤ n → get_age_bucket (.i n) = some "55+") ∧
    (∀ v : String, pyIsNumeric v = true → 55 ≤ pyInt v →
       get_age_bucket (.s v) = some "55+") ∧
    (∀ n : Int, 15 ≤ n → n ≤ 19 → get_age_bucket (.i n) = some "15-19") ∧
    (∀ v : String, pyIsNumeric v = true → 15 ≤ pyInt v → pyInt v ≤ 19 →
       get_age_bucket (.s v) = some "15-19") ∧
    (∀ n : Int, 0 ≤ n → n < 15 → get_age_bucket (.i n) = some "N/A") ∧
    (∀ v : String, pyIsNumeric v = true → pyInt v < 15 →
       get_age_bucket (.s v) = some "N/A") ∧
    (∀ v : String, pyIsNumeric v = false → get_age_bucket (.s v) = some v) := by
  refine ⟨?_, ?_, ?_, ?_, ?_, ?_, ?_⟩
  · intro n h
    simp [get_age_bucket, ageBucketOfInt_55 n h]
  · intro v hnum h
    simp only [get_age_bucket, hnum, if_true]
    rw [ageBucketOfInt_55 _ (by omega)]
  · intro n h15 h19
    simp [get_age_bucket, ageBucketOfInt_15_19 n h15 h19]
  · intro v hnum h15 h19
    simp only [get_age_bucket, hnum, if_true]
    rw [ageBucketOfInt_15_19 _ (by omega) (by omega)]
  · intro n _ h
    simp [get_age_bucket, ageBucketOfInt_NA n h]
  · intro v hnum h
    simp only [get_age_bucket, hnum, if_true]
    rw [ageBucketOfInt_NA _ (by omega)]
  · intro v hnum
    simp [get_age_bucket, hnum]

/-- Witness for C6: concrete instances of every range. -/
theorem claim6_witness :
    get_age_bucket (.i 60) = some "55+" ∧
    get_age_bucket (.s "60") = some "55+" ∧
    get_age_bucket (.i 17) = some "15-19" ∧
    get_age_bucket (.s "17") = some "15-19" ∧
    get_age_bucket (.i 7) = some "N/A" ∧
    get_age_bucket (.s "7") = some "N/A" ∧
    get_age_bucket (.s "prefer not to say") = some "prefer not to say" :=
  ⟨claim6_age_bucket_ranges.1 60 (by decide),
   claim6_age_bucket_ranges.2.1 "60" (by decide) (by decide),
   claim6_age_bucket_ranges.2.2.1 17 (by decide) (by decide),
   claim6_age_bucket_ranges.2.2.2.1 "17" (by decide) (by decide) (by decide),
   claim6_age_bucket_ranges.2.2.2.2.1 7 (by decide) (by decide),
   claim6_age_bucket_ranges.2.2.2.2.2.1 "7" (by decide) (by decide),
   claim6_age_bucket_ranges.2.2.2.2.2.2 "prefer not to say" (by decide)⟩

/-! Claim C2: the Mexico original/English raw-response join. -/

theorem rowGet_ite_rowSet {p : Prop} [Decidable p] {r : Row} {col : String}
    {v : Cell} {c : String} (h : c ≠ col) :
    rowGet (if p then rowSet r col v else r) c = rowGet r c := by
  by_cases hp : p
  · rw [if_pos hp, rowGet_rowSet_ne _ _ _ _ h]
  · rw [if_neg hp]

/-- Claim C2 (amended): for `economic_empowerment_mexico` and q2, when both
the original and the English text are truthy the raw-response cell becomes
`"original (english)"`; when only the original is truthy it becomes the
original; otherwise — in particular when only the English text is present —
the raw-response cell is left unchanged (unset). -/
theorem claim2_mexico_text_join (af : List (String × String)) (row : Row)
    (h : rowGet row "additional_fields" = Cell.json (some af)) :
    ∃ row', populate_additional_q_columns .economic_empowerment_mexico .q2 row =
        some row' ∧
      rowGet row' (get_raw_response_col_name .q2) =
        (if (truthy (af.lookup "q2_response_original_text") &&
             truthy (af.lookup "q2_response_english_text")) = true then
          Cell.s ((af.lookup "q2_response_original_text").getD "" ++ " (" ++
                  (af.lookup "q2_response_english_text").getD "" ++ ")")
        else if truthy (af.lookup "q2_response_original_text") = true then
          Cell.s ((af.lookup "q2_response_original_text").getD "")
        else rowGet row (get_raw_response_col_name .q2)) := by
  unfold populate_additional_q_columns
  rw [h]
  simp only [jsonLoads]
  have e1 : QuestionCode.value .q2 ++ "_response_original_text" =
      "q2_response_original_text" := rfl
  have e2 : QuestionCode.value .q2 ++ "_response_english_text" =
      "q2_response_english_text" := rfl
  have e3 : QuestionCode.value .q2 ++ "_response_lemmatized_text" =
      "q2_response_lemmatized_text" := rfl
  have e4 : QuestionCode.value .q2 ++ "_response_nlu_category" =
      "q2_response_nlu_category" := rfl
  have e5 : QuestionCode.value .q2 ++ "_response_original_lang" =
      "q2_response_original_lang" := rfl
  rw [e1, e2, e3, e4, e5]
  refine ⟨_, rfl, ?_⟩
  rw [rowGet_ite_rowSet
      (by decide : get_raw_response_col_name .q2 ≠ get_original_language_col_name .q2)]
  rw [rowGet_ite_rowSet
      (by decide : get_raw_response_col_name .q2 ≠ get_canonical_code_col_name .q2)]
  rw [rowGet_ite_rowSet
      (by decide : get_raw_response_col_name .q2 ≠ get_lemmatized_col_name .q2)]
  rw [if_pos trivial]
  by_cases hb : (truthy (af.lookup "q2_response_original_text") &&
      truthy (af.lookup "q2_response_english_text")) = true
  · rw [if_pos hb, if_pos hb, rowGet_rowSet_same]
  · rw [if_neg hb, if_neg hb]
    by_cases h2 : truthy (af.lookup "q2_response_original_text") = true
    · rw [if_pos h2, if_pos h2, rowGet_rowSet_same]
    · rw [if_neg h2, if_neg h2]

/-- A row whose additional fields carry only the q2 English text. -/
def rowEngOnly : Row :=
  [("additional_fields", .json (some [("q2_response_english_text", "hello")]))]

/-- Counterexample for C2 as stated: when only the English text is present,
the raw-response cell stays unset (missing) instead of receiving the English
text. -/
theorem claim2_cex :
    (populate_additional_q_columns .economic_empowerment_mexico .q2 rowEngOnly).map
        (fun r => rowGet r (get_raw_response_col_name .q2)) = some Cell.nan ∧
      Cell.nan ≠ Cell.s "hello" := by decide

/-- Witness for C2: the amended statement at a row holding both texts. -/
theorem claim2_witness :
    (populate_additional_q_columns .economic_empowerment_mexico .q2 rowMexGood).map
        (fun r => rowGet r (get_raw_response_col_name .q2)) =
      some (Cell.s "hola (hello)") := by
  obtain ⟨row', hp, hv⟩ := claim2_mexico_text_join
    [("q2_response_original_text", "hola"), ("q2_response_english_text", "hello"),
     ("q2_response_lemmatized_text", "hola"), ("q2_response_nlu_category", "CAT2")]
    rowMexGood (by decide)
  rw [hp, Option.map_some']
  rw [if_pos (by decide)] at hv
  rw [hv]
  decide

/-! Claim C7: order independence and idempotence of `get_top_level`. -/

theorem mem_sortedInsert (x a : String) (l : List String) :
    x ∈ sortedInsert a l ↔ x = a ∨ x ∈ l := by
  induction l with
  | nil => simp [sortedInsert]
  | cons b bs ih =>
    unfold sortedInsert
    by_cases h1 : a = b
    · subst h1
      rw [if_pos rfl]
      simp only [List.mem_cons]
      tauto
    · rw [if_neg h1]
      by_cases h2 : a < b
      · rw [if_pos h2]
        simp [List.mem_cons]
      · rw [if_neg h2]
        simp only [List.mem_cons, ih]
        tauto

theorem sorted_sortedInsert (a : String) (l : List String)
    (hl : l.Sorted (· < ·)) : (sortedInsert a l).Sorted (· < ·) := by
  induction l with
  | nil => simp [sortedInsert]
  | cons b bs ih =>
    rw [List.sorted_cons] at hl
    obtain ⟨hb, hbs⟩ := hl
    unfold sortedInsert
    by_cases h1 : a = b
    · rw [if_pos h1]
      exact List.sorted_cons.mpr ⟨hb, hbs⟩
    · rw [if_neg h1]
      by_cases h2 : a < b
      · rw [if_pos h2]
        refine List.sorted_cons.mpr ⟨?_, List.sorted_cons.mpr ⟨hb, hbs⟩⟩
        intro y hy
        rcases List.mem_cons.mp hy with rfl | hy'
        · exact h2
        · exact lt_trans h2 (hb y hy')
      · rw [if_neg h2]
        refine List.sorted_cons.mpr ⟨?_, ih hbs⟩
        intro y hy
        rcases (mem_sortedInsert y a bs).mp hy with rfl | hy'
        · exact lt_of_le_of_ne (not_lt.mp h2) (Ne.symm h1)
        · exact hb y hy'

theorem sorted_sortDedup (l : List String) : (sortDedup l).Sorted (· < ·) := by
  induction l with
  | nil => simp [sortDedup]
  | cons a as ih => exact sorted_sortedInsert a _ ih

theorem mem_sortDedup (x : String) (l : List String) :
    x ∈ sortDedup l ↔ x ∈ l := by
  induction l with
  | nil => simp [sortDedup]
  | cons a as ih =>
    show x ∈ sortedInsert a (sortDedup as) ↔ _
    rw [mem_sortedInsert, ih]
    simp [List.mem_cons]

theorem sorted_eq_of_mem_iff : ∀ {l₁ l₂ : List String}, l₁.Sorted (· < ·) →
    l₂.Sorted (· < ·) → (∀ x, x ∈ l₁ ↔ x ∈ l₂) → l₁ = l₂ := by
  intro l₁
  induction l₁ with
  | nil =>
    intro l₂ _ _ hmem
    cases l₂ with
    | nil => rfl
    | cons b bs =>
      exact absurd ((hmem b).mpr (List.mem_cons_self b bs)) (List.not_mem_nil b)
  | cons a as ih =>
    intro l₂ h₁ h₂ hmem
    cases l₂ with
    | nil => exact absurd ((hmem a).mp (List.mem_cons_self a as)) (List.not_mem_nil a)
    | cons b bs =>
      rw [List.sorted_cons] at h₁ h₂
      have hab : a = b := by
        have ha : a ∈ b :: bs := (hmem a).mp (List.mem_cons_self a as)
        have hb : b ∈ a :: as := (hmem b).mpr (List.mem_cons_self b bs)
        rcases List.mem_cons.mp ha with h | h
        · exact h
        · rcases List.mem_cons.mp hb with h' | h'
          · exact h'.symm
          · exact absurd (h₂.1 a h) (lt_asymm (h₁.1 b h'))
      subst hab
      congr 1
      refine ih h₁.2 h₂.2 ?_
      intro x
      constructor
      · intro hx
        have hx2 : x ∈ a :: bs := (hmem x).mp (List.mem_cons_of_mem _ hx)
        rcases List.mem_cons.mp hx2 with rfl | h
        · exact absurd (h₁.1 x hx) (lt_irrefl x)
        · exact h
      · intro hx
        have hx2 : x ∈ a :: as := (hmem x).mpr (List.mem_cons_of_mem _ hx)
        rcases List.mem_cons.mp hx2 with rfl | h
        · exact absurd (h₂.1 x hx) (lt_irrefl x)
        · exact h

theorem sortDedup_congr {l₁ l₂ : List String} (h : ∀ x, x ∈ l₁ ↔ x ∈ l₂) :
    sortDedup l₁ = sortDedup l₂ :=
  sorted_eq_of_mem_iff (sorted_sortDedup l₁) (sorted_sortDedup l₂)
    (fun x => by rw [mem_sortDedup, mem_sortDedup]; exact h x)

theorem sortDedup_sorted_id {l : List String} (hl : l.Sorted (· < ·)) :
    sortDedup l = l :=
  sorted_eq_of_mem_iff (sorted_sortDedup l) hl (fun x => mem_sortDedup x l)

theorem splitOnChar_ne_nil (c : Char) (l : List Char) : splitOnChar c l ≠ [] := by
  cases l with
  | nil => simp [splitOnChar]
  | cons x xs =>
    unfold splitOnChar
    cases h : splitOnChar c xs with
    | nil => simp
    | cons hh tt => by_cases hx : x = c <;> simp [hx]

theorem not_mem_splitOnChar (c : Char) (l : List Char) :
    ∀ x ∈ splitOnChar c l, c ∉ x := by
  induction l with
  | nil =>
    intro x hx
    simp [splitOnChar] at hx
    subst hx
    simp
  | cons y ys ih =>
    intro x hx
    cases h : splitOnChar c ys with
    | nil => exact absurd h (splitOnChar_ne_nil c ys)
    | cons hh tt =>
      have hstep : splitOnChar c (y :: ys) =
          if y = c then [] :: hh :: tt else (y :: hh) :: tt := by
        unfold splitOnChar
        rw [h]
      rw [hstep] at hx
      by_cases hy : y = c
      · rw [if_pos hy] at hx
        rcases List.mem_cons.mp hx with rfl | hx'
        · simp
        · exact ih x (by rw [h]; exact hx')
      · rw [if_neg hy] at hx
        rcases List.mem_cons.mp hx with rfl | hx'
        · intro hc
          rcases List.mem_cons.mp hc with h1 | h1
          · exact hy h1.symm
          · exact ih hh (by rw [h]; exact List.mem_cons_self _ _) h1
        · exact ih x (by rw [h]; exact List.mem_cons_of_mem _ hx')

theorem splitOnChar_no_sep (c : Char) (l : List Char) (h : c ∉ l) :
    splitOnChar c l = [l] := by
  induction l with
  | nil => rfl
  | cons x xs ih =>
    have hx : ¬ x = c := by
      intro hxc
      subst hxc
      exact h (List.mem_cons_self x xs)
    have hxs : c ∉ xs := fun hc => h (List.mem_cons_of_mem x hc)
    cases hsp : splitOnChar c xs with
    | nil => exact absurd hsp (splitOnChar_ne_nil c xs)
    | cons hh tt =>
      have hstep : splitOnChar c (x :: xs) =
          if x = c then [] :: hh :: tt else (x :: hh) :: tt := by
        unfold splitOnChar
        rw [hsp]
      rw [hstep, if_neg hx]
      have heq := ih hxs
      rw [hsp] at heq
      injection heq with h1 h2
      rw [h1, h2]

theorem splitOnChar_append (c : Char) (x rest : List Char) (hx : c ∉ x) :
    splitOnChar c (x ++ c :: rest) = x :: splitOnChar c rest := by
  induction x with
  | nil =>
    simp only [List.nil_append]
    cases h : splitOnChar c rest with
    | nil => exact absurd h (splitOnChar_ne_nil c rest)
    | cons hh tt =>
      have hstep : splitOnChar c (c :: rest) =
          if c = c then [] :: hh :: tt else (c :: hh) :: tt := by
        unfold splitOnChar
        rw [h]
      rw [hstep, if_pos rfl]
  | cons y ys ih =>
    have hy : ¬ y = c := by
      intro hc
      subst hc
      exact hx (List.mem_cons_self _ _)
    have hys : c ∉ ys := fun hc => hx (List.mem_cons_of_mem _ hc)
    simp only [List.cons_append]
    cases h : splitOnChar c (ys ++ c :: rest) with
    | nil => exact absurd h (splitOnChar_ne_nil _ _)
    | cons hh tt =>
      have hstep : splitOnChar c (y :: (ys ++ c :: rest)) =
          if y = c then [] :: hh :: tt else (y :: hh) :: tt := by
        unfold splitOnChar
        rw [h]
      rw [hstep, if_neg hy]
      have heq := ih hys
      rw [h] at heq
      injection heq with h1 h2
      rw [h1, h2]

theorem joinWithChar_split (c : Char) : ∀ (L : List (List Char)), L ≠ [] →
    (∀ x ∈ L, c ∉ x) → splitOnChar c (joinWithChar c L) = L := by
  intro L
  induction L with
  | nil => intro h; exact absurd rfl h
  | cons x t ih =>
    intro _ hall
    cases t with
    | nil => exact splitOnChar_no_sep c x (hall x (List.mem_cons_self _ _))
    | cons y tt =>
      show splitOnChar c (x ++ c :: joinWithChar c (y :: tt)) = x :: y :: tt
      rw [splitOnChar_append c x _ (hall x (List.mem_cons_self _ _))]
      rw [ih (by simp) (fun z hz => hall z (List.mem_cons_of_mem _ hz))]

theorem pySplit_ne_nil (c : Char) (s : String) : pySplit c s ≠ [] := by
  unfold pySplit
  intro h
  exact splitOnChar_ne_nil c s.data (List.map_eq_nil_iff.mp h)

theorem not_mem_data_pySplit (c : Char) (s : String) :
    ∀ x ∈ pySplit c s, c ∉ x.data := by
  intro x hx
  obtain ⟨lx, hlx, rfl⟩ := List.mem_map.mp hx
  exact not_mem_splitOnChar c s.data lx hlx

theorem map_mk_map_data (L : List String) :
    List.map String.mk (List.map String.data L) = L := by
  induction L with
  | nil => rfl
  | cons a t ih => rw [List.map_cons, List.map_cons, ih]

theorem pySplit_pyJoin (c : Char) (L : List String) (hne : L ≠ [])
    (hall : ∀ x ∈ L, c ∉ x.data) : pySplit c (pyJoin c L) = L := by
  unfold pySplit pyJoin
  rw [show (String.mk (joinWithChar c (L.map String.data))).data =
      joinWithChar c (L.map String.data) from rfl]
  rw [joinWithChar_split c (L.map String.data)
      (by simpa using hne)
      (by
        intro x hx
        obtain ⟨y, hy, rfl⟩ := List.mem_map.mp hx
        exact hall y hy)]
  exact map_mk_map_data L

theorem lookup_mem {β : Type} {l : List (String × β)} {k : String} {v : β}
    (h : l.lookup k = some v) : (k, v) ∈ l := by
  induction l with
  | nil => simp [List.lookup] at h
  | cons p t ih =>
    obtain ⟨k', v'⟩ := p
    by_cases hk : k = k'
    · subst hk
      simp [List.lookup] at h
      subst h
      exact List.mem_cons_self _ _
    · have hb : (k == k') = false := beq_eq_false_iff_ne.mpr hk
      simp [List.lookup, hb] at h
      exact List.mem_cons_of_mem _ (ih h)

/-- Modelled from the spec: `code_hierarchy.get_mapping_to_top_level` (not
under src/) is built from a static per-campaign tree of parent→children
category codes, so a top-level (parent) code is never itself a leaf key of
the mapping and category codes do not contain the `/` separator. -/
def GoodMapping (mapping : List (String × String)) : Prop :=
  ∀ p ∈ mapping, ('/' ∉ p.2.data) ∧ mapping.lookup p.2 = none

instance (mapping : List (String × String)) : Decidable (GoodMapping mapping) :=
  List.decidableBAll _ mapping

/-- Claim C7: for any per-campaign mapping arising from a category tree,
`get_top_level` gives identical outputs on inputs with the same set of leaf
tokens, and is idempotent. -/
theorem claim7_top_level_props (mapping : List (String × String))
    (hm : GoodMapping mapping) :
    (∀ s1 s2, (∀ x, x ∈ pySplit '/' s1 ↔ x ∈ pySplit '/' s2) →
       get_top_level mapping s1 = get_top_level mapping s2) ∧
    (∀ s, get_top_level mapping (get_top_level mapping s) =
       get_top_level mapping s) := by
  constructor
  · intro s1 s2 hmem
    unfold get_top_level
    congr 1
    apply sortDedup_congr
    intro x
    simp only [List.mem_map]
    constructor
    · rintro ⟨y, hy, rfl⟩
      exact ⟨y, (hmem y).mp hy, rfl⟩
    · rintro ⟨y, hy, rfl⟩
      exact ⟨y, (hmem y).mpr hy, rfl⟩
  · intro s
    unfold get_top_level
    set f := fun cat => (mapping.lookup cat).getD cat with hf
    set L := sortDedup ((pySplit '/' s).map f) with hL
    have hmemL : ∀ x ∈ L, '/' ∉ x.data ∧ f x = x := by
      intro x hx
      rw [hL, mem_sortDedup] at hx
      obtain ⟨y, hy, rfl⟩ := List.mem_map.mp hx
      cases hlky : mapping.lookup y with
      | some v =>
        have hfv : f y = v := by rw [hf]; simp [hlky]
        obtain ⟨hslash, hnone⟩ := hm (y, v) (lookup_mem hlky)
        rw [hfv]
        exact ⟨hslash, by rw [hf]; simp [hnone]⟩
      | none =>
        have hfy : f y = y := by rw [hf]; simp [hlky]
        rw [hfy]
        exact ⟨not_mem_data_pySplit '/' s y hy, hfy⟩
    have hLne : L ≠ [] := by
      cases hsp : pySplit '/' s with
      | nil => exact absurd hsp (pySplit_ne_nil '/' s)
      | cons a t =>
        intro hnil
        have hmem : f a ∈ L := by
          rw [hL, mem_sortDedup]
          exact List.mem_map_of_mem f (by rw [hsp]; exact List.mem_cons_self _ _)
        rw [hnil] at hmem
        exact List.not_mem_nil _ hmem
    rw [pySplit_pyJoin '/' L hLne (fun x hx => (hmemL x hx).1)]
    have hmapL : ∀ (M : List String), (∀ x ∈ M, f x = x) → M.map f = M := by
      intro M hM
      induction M with
      | nil => rfl
      | cons a t ih =>
        rw [List.map_cons, hM a (List.mem_cons_self _ _),
          ih (fun x hx => hM x (List.mem_cons_of_mem _ hx))]
    rw [hmapL L (fun x hx => (hmemL x hx).2)]
    rw [sortDedup_sorted_id (by rw [hL]; exact sorted_sortDedup _)]

/-- A two-leaf category mapping with a common parent. -/
def mappingAB : List (String × String) := [("A", "T"), ("B", "T")]

/-- Witness for C7: the spec's `"B/A"` versus `"A/B"` example, plus
idempotence at that input. -/
theorem claim7_witness :
    get_top_level mappingAB "B/A" = get_top_level mappingAB "A/B" ∧
    get_top_level mappingAB (get_top_level mappingAB "B/A") =
      get_top_level mappingAB "B/A" :=
  ⟨(claim7_top_level_props mappingAB (by decide)).1 "B/A" "A/B"
    (by
      intro x
      have h1 : pySplit '/' "B/A" = ["B", "A"] := by decide
      have h2 : pySplit '/' "A/B" = ["A", "B"] := by decide
      rw [h1, h2]
      simp only [List.mem_cons, List.not_mem_nil, or_false]
      tauto),
   (claim7_top_level_props mappingAB (by decide)).2 "B/A"⟩

/-! Claim C8: the coordinate cache is merge-only. -/

theorem lookup_alSetG_self {α : Type} (l : List (String × α)) (k : String) (v : α) :
    (alSetG l k v).lookup k = some v := by
  induction l with
  | nil => simp [alSetG, List.lookup]
  | cons p t ih =>
    obtain ⟨k', v'⟩ := p
    by_cases h : k' = k
    · subst h
      simp [alSetG, List.lookup]
    · have hb : (k == k') = false := beq_eq_false_iff_ne.mpr (Ne.symm h)
      simp [alSetG, h, List.lookup, hb, ih]

theorem lookup_alSetG_ne {α : Type} (l : List (String × α)) (k k' : String) (v : α)
    (h : k' ≠ k) : (alSetG l k v).lookup k' = l.lookup k' := by
  induction l with
  | nil => simp [alSetG, List.lookup, beq_eq_false_iff_ne.mpr h]
  | cons p t ih =>
    obtain ⟨k₀, v₀⟩ := p
    by_cases h₀ : k₀ = k
    · subst h₀
      simp [alSetG, List.lookup, beq_eq_false_iff_ne.mpr h]
    · by_cases h₁ : k' = k₀
      · subst h₁
        simp [alSetG, h₀, List.lookup]
      · simp [alSetG, h₀, List.lookup, beq_eq_false_iff_ne.mpr h₁, ih]

theorem processLocation_mono {α : Type} (g : String → α)
    (st : Coords α × List (String × String)) (loc : LocEntry)
    (cc r : String) (v : α) (h : lookup2 st.1 cc r = some v) :
    lookup2 (processLocation g st loc).1 cc r = some v := by
  unfold processLocation
  unfold lookup2 at h ⊢
  cases hc0 : st.1.lookup loc.alpha2 with
  | none =>
    simp only [processFound]
    by_cases hcc : cc = loc.alpha2
    · subst hcc
      rw [hc0] at h
      simp at h
    · rw [lookup_alSetG_ne _ _ _ _ hcc, lookup_alSetG_ne _ _ _ _ hcc]
      exact h
  | some cmap =>
    simp only [processFound]
    by_cases hskip : (!cmap.isEmpty && (cmap.lookup loc.regionName).isSome) = true
    · rw [if_pos hskip]
      exact h
    · rw [if_neg hskip]
      by_cases hcc : cc = loc.alpha2
      · subst hcc
        rw [hc0, Option.some_bind] at h
        have hne : cmap ≠ [] := by
          intro hnil
          rw [hnil] at h
          simp [List.lookup] at h
        have hemp : cmap.isEmpty = false := by
          cases cmap with
          | nil => exact absurd rfl hne
          | cons q t => rfl
        have hcond : ¬ (cmap.isEmpty = true) := by
          rw [hemp]
          exact Bool.false_ne_true
        simp only [if_neg hcond]
        rw [lookup_alSetG_self, Option.some_bind, hc0, Option.getD_some]
        have hrn : cmap.lookup loc.regionName = none := by
          cases hlk : cmap.lookup loc.regionName with
          | none => rfl
          | some w =>
            exfalso
            apply hskip
            rw [hemp, hlk]
            rfl
        have hr_ne : r ≠ loc.regionName := by
          intro hr
          rw [hr, hrn] at h
          cases h
        rw [lookup_alSetG_ne _ _ _ _ hr_ne]
        exact h
      · have hite : (if cmap.isEmpty = true then alSetG st.1 loc.alpha2 [] else
            st.1).lookup cc = st.1.lookup cc := by
          by_cases hemp : cmap.isEmpty = true
          · rw [if_pos hemp, lookup_alSetG_ne _ _ _ _ hcc]
          · rw [if_neg hemp]
        rw [lookup_alSetG_ne _ _ _ _ hcc, hite]
        exact h

theorem processLocation_queried {α : Type} (g : String → α)
    (st : Coords α × List (String × String)) (loc : LocEntry) :
    ∀ p ∈ (processLocation g st loc).2,
      p ∈ st.2 ∨ lookup2 st.1 p.1 p.2 = none := by
  intro p hp
  unfold processLocation at hp
  cases hc0 : st.1.lookup loc.alpha2 with
  | none =>
    rw [hc0] at hp
    simp only [processFound] at hp
    rcases List.mem_append.mp hp with h | h
    · exact Or.inl h
    · right
      have hpp : p = (loc.alpha2, loc.regionName) := by simpa using h
      rw [hpp]
      unfold lookup2
      rw [hc0]
      rfl
  | some cmap =>
    rw [hc0] at hp
    simp only [processFound] at hp
    by_cases hskip : (!cmap.isEmpty && (cmap.lookup loc.regionName).isSome) = true
    · rw [if_pos hskip] at hp
      exact Or.inl hp
    · rw [if_neg hskip] at hp
      rcases List.mem_append.mp hp with h | h
      · exact Or.inl h
      · right
        have hpp : p = (loc.alpha2, loc.regionName) := by simpa using h
        rw [hpp]
        unfold lookup2
        rw [hc0, Option.some_bind]
        cases hlk : cmap.lookup loc.regionName with
        | none => rfl
        | some w =>
          exfalso
          apply hskip
          have hemp : cmap.isEmpty = false := by
            cases cmap with
            | nil => simp [List.lookup] at hlk
            | cons q t => rfl
          rw [hemp, hlk]
          rfl

theorem load_coordinates_pass_aux {α : Type} (g : String → α) (coords0 : Coords α) :
    ∀ (locs : List LocEntry) (st : Coords α × List (String × String)),
      (∀ cc r v, lookup2 coords0 cc r = some v → lookup2 st.1 cc r = some v) →
      (∀ p ∈ st.2, lookup2 coords0 p.1 p.2 = none) →
      (∀ cc r v, lookup2 coords0 cc r = some v →
         lookup2 (locs.foldl (processLocation g) st).1 cc r = some v) ∧
      (∀ p ∈ (locs.foldl (processLocation g) st).2,
         lookup2 coords0 p.1 p.2 = none) := by
  intro locs
  induction locs with
  | nil =>
    intro st h1 h2
    exact ⟨h1, h2⟩
  | cons loc rest ih =>
    intro st h1 h2
    apply ih
    · intro cc r v hv
      exact processLocation_mono g st loc cc r v (h1 cc r v hv)
    · intro p hp
      rcases processLocation_queried g st loc p hp with h | h
      · exact h2 p h
      · cases hc : lookup2 coords0 p.1 p.2 with
        | none => rfl
        | some v =>
          have hst := h1 p.1 p.2 v hc
          rw [h] at hst
          cases hst

/-- Claim C8: the coordinate-loading pass never overwrites a cache entry that
existed before the pass — the stored value for every pre-existing
(country, region) pair is unchanged regardless of what the geocoder returns —
and the geocoder is queried only for pairs absent from the cache. -/
theorem claim8_cache_merge_only {α : Type} (geocoder : String → α)
    (coords0 : Coords α) (locs : List LocEntry) :
    (∀ cc r v, lookup2 coords0 cc r = some v →
       lookup2 (load_coordinates_pass geocoder coords0 locs).1 cc r = some v) ∧
    (∀ p ∈ (load_coordinates_pass geocoder coords0 locs).2,
       lookup2 coords0 p.1 p.2 = none) := by
  unfold load_coordinates_pass
  exact load_coordinates_pass_aux geocoder coords0 locs (coords0, [])
    (fun _ _ _ h => h) (by simp)

/-- Witness for C8: the spec's example — seeding the cache with
`{"US": {"CA": 1}}` and resolving `"United States, CA"` against a geocoder
that would return 2 leaves the stored value at 1. -/
theorem claim8_witness :
    lookup2 (load_coordinates_pass (fun _ => (2 : Int)) [("US", [("CA", 1)])]
        [⟨"US", "United States", "CA"⟩]).1 "US" "CA" = some 1 :=
  (claim8_cache_merge_only (fun _ => (2 : Int)) [("US", [("CA", 1)])]
      [⟨"US", "United States", "CA"⟩]).1 "US" "CA" 1 (by decide)

/-! Claim C9: the gender and profession facets. -/

theorem mem_distinctAux {β : Type} [DecidableEq β] (seen : List β) (l : List β)
    (x : β) : x ∈ distinctAux seen l ↔ x ∈ l ∧ x ∉ seen := by
  induction l generalizing seen with
  | nil => simp [distinctAux]
  | cons a t ih =>
    unfold distinctAux
    by_cases h : a ∈ seen
    · rw [if_pos h, ih]
      simp only [List.mem_cons]
      constructor
      · rintro ⟨hx, hn⟩
        exact ⟨Or.inr hx, hn⟩
      · rintro ⟨hor, hn⟩
        rcases hor with rfl | hx
        · exact absurd h hn
        · exact ⟨hx, hn⟩
    · rw [if_neg h]
      simp only [List.mem_cons, ih]
      constructor
      · rintro (rfl | ⟨hx, hn⟩)
        · exact ⟨Or.inl rfl, h⟩
        · exact ⟨Or.inr hx, fun hs => hn (Or.inr hs)⟩
      · rintro ⟨hor, hn⟩
        by_cases hxa : x = a
        · exact Or.inl hxa
        · rcases hor with rfl | hx
          · exact Or.inl rfl
          · refine Or.inr ⟨hx, ?_⟩
            intro hs
            rcases hs with h' | h'
            · exact hxa h'
            · exact hn h'

theorem nodup_distinctAux {β : Type} [DecidableEq β] (seen : List β) (l : List β) :
    (distinctAux seen l).Nodup := by
  induction l generalizing seen with
  | nil => simp [distinctAux]
  | cons a t ih =>
    unfold distinctAux
    by_cases h : a ∈ seen
    · rw [if_pos h]
      exact ih seen
    · rw [if_neg h]
      refine List.nodup_cons.mpr ⟨?_, ih (a :: seen)⟩
      intro hmem
      exact ((mem_distinctAux (a :: seen) t a).mp hmem).2 (List.mem_cons_self _ _)

theorem mem_distinctL {β : Type} [DecidableEq β] (l : List β) (x : β) :
    x ∈ distinctL l ↔ x ∈ l := by
  unfold distinctL
  rw [mem_distinctAux]
  simp

theorem nodup_distinctL {β : Type} [DecidableEq β] (l : List β) :
    (distinctL l).Nodup := nodup_distinctAux [] l

theorem mem_insertDesc (cnt : String → Nat) (x a : String) (l : List String) :
    x ∈ insertDesc cnt a l ↔ x = a ∨ x ∈ l := by
  induction l with
  | nil => simp [insertDesc]
  | cons b bs ih =>
    unfold insertDesc
    by_cases h : cnt b < cnt a
    · rw [if_pos h]
      simp [List.mem_cons]
    · rw [if_neg h]
      simp only [List.mem_cons, ih]
      tauto

theorem nodup_insertDesc (cnt : String → Nat) (a : String) (l : List String)
    (hna : a ∉ l) (hl : l.Nodup) : (insertDesc cnt a l).Nodup := by
  induction l with
  | nil => simp [insertDesc]
  | cons b bs ih =>
    obtain ⟨hb, hbs⟩ := List.nodup_cons.mp hl
    unfold insertDesc
    by_cases h : cnt b < cnt a
    · rw [if_pos h]
      exact List.nodup_cons.mpr ⟨hna, hl⟩
    · rw [if_neg h]
      refine List.nodup_cons.mpr ⟨?_, ih (fun hx => hna (List.mem_cons_of_mem _ hx)) hbs⟩
      intro hmem
      rcases (mem_insertDesc cnt b a bs).mp hmem with h' | h'
      · exact hna (h' ▸ List.mem_cons_self _ _)
      · exact hb h'

theorem pairwise_insertDesc (cnt : String → Nat) (a : String) (l : List String)
    (hl : l.Pairwise (fun u w => cnt w ≤ cnt u)) :
    (insertDesc cnt a l).Pairwise (fun u w => cnt w ≤ cnt u) := by
  induction l with
  | nil => simp [insertDesc]
  | cons b bs ih =>
    rw [List.pairwise_cons] at hl
    obtain ⟨hb, hbs⟩ := hl
    unfold insertDesc
    by_cases h : cnt b < cnt a
    · rw [if_pos h]
      refine List.pairwise_cons.mpr ⟨?_, List.pairwise_cons.mpr ⟨hb, hbs⟩⟩
      intro y hy
      rcases List.mem_cons.mp hy with rfl | hy'
      · exact le_of_lt h
      · exact le_trans (hb y hy') (le_of_lt h)
    · rw [if_neg h]
      refine List.pairwise_cons.mpr ⟨?_, ih hbs⟩
      intro y hy
      rcases (mem_insertDesc cnt y a bs).mp hy with rfl | hy'
      · exact not_lt.mp h
      · exact hb y hy'

theorem sortDesc_props (cnt : String → Nat) (l : List String) (hl : l.Nodup) :
    (∀ x, x ∈ l.foldr (insertDesc cnt) [] ↔ x ∈ l) ∧
    (l.foldr (insertDesc cnt) []).Nodup ∧
    (l.foldr (insertDesc cnt) []).Pairwise (fun u w => cnt w ≤ cnt u) := by
  induction l with
  | nil => simp
  | cons a t ih =>
    obtain ⟨hna, ht⟩ := List.nodup_cons.mp hl
    obtain ⟨hmem, hnodup, hpair⟩ := ih ht
    refine ⟨?_, ?_, ?_⟩
    · intro x
      show x ∈ insertDesc cnt a (t.foldr (insertDesc cnt) []) ↔ _
      rw [mem_insertDesc, hmem]
      simp [List.mem_cons]
    · exact nodup_insertDesc cnt a _ (fun hx => hna ((hmem a).mp hx)) hnodup
    · exact pairwise_insertDesc cnt a _ hpair

theorem eq_empty_of_isEmpty (v : String) (h : v.isEmpty = true) : v = "" := by
  cases v with
  | mk data =>
    cases data with
    | nil => rfl
    | cons c cs =>
      exfalso
      simp [String.isEmpty, String.endPos, String.utf8ByteSize,
        String.Pos.ext_iff] at h
      have hpos := Char.utf8Size_pos c
      omega

theorem mem_value_counts (vs : List String) (x : String) :
    x ∈ value_counts vs ↔ x ∈ vs := by
  unfold value_counts
  rw [(sortDesc_props _ _ (nodup_distinctL vs)).1 x, mem_distinctL]

theorem nodup_value_counts (vs : List String) : (value_counts vs).Nodup :=
  (sortDesc_props _ _ (nodup_distinctL vs)).2.1

theorem pairwise_value_counts (vs : List String) :
    (value_counts vs).Pairwise (fun a b => vs.count b ≤ vs.count a) :=
  (sortDesc_props _ _ (nodup_distinctL vs)).2.2

/-- Claim C9 (amended): each facet is computed only when its column id is
among the responses-sample columns (otherwise empty); the profession facet is
exactly the distinct non-null observed values in descending frequency order;
the gender facet is the distinct non-null observed values in descending
frequency order minus falsy values — the empty string is excluded; and a
successful load stores exactly these facets. -/
theorem claim9_facets (column_ids : List String) (df : List Row) :
    ("gender" ∉ column_ids → gendersFacet column_ids df = []) ∧
    ("profession" ∉ column_ids → professionsFacet column_ids df = []) ∧
    (∀ v, v ∈ gendersFacet column_ids df ↔
      "gender" ∈ column_ids ∧ v ∈ colStrings df "gender" ∧ v ≠ "") ∧
    (∀ v, v ∈ professionsFacet column_ids df ↔
      "profession" ∈ column_ids ∧ v ∈ colStrings df "profession") ∧
    (gendersFacet column_ids df).Nodup ∧
    (professionsFacet column_ids df).Nodup ∧
    (gendersFacet column_ids df).Pairwise
      (fun a b => (colStrings df "gender").count b ≤
        (colStrings df "gender").count a) ∧
    (professionsFacet column_ids df).Pairwise
      (fun a b => (colStrings df "profession").count b ≤
        (colStrings df "profession").count a) ∧
    (∀ (cc : CampaignCode) (m : List (String × String))
       (cd : List (String × CountryInfo)) (df0 : List Row) (res : LoadResult),
       load_campaign_data cc m column_ids cd df0 = some res →
       res.genders = gendersFacet column_ids res.df ∧
       res.professions = professionsFacet column_ids res.df) := by
  refine ⟨?_, ?_, ?_, ?_, ?_, ?_, ?_, ?_, ?_⟩
  · intro h
    unfold gendersFacet
    rw [if_neg h]
  · intro h
    unfold professionsFacet
    rw [if_neg h]
  · intro v
    unfold gendersFacet
    by_cases hg : "gender" ∈ column_ids
    · rw [if_pos hg, List.mem_filter, mem_value_counts]
      constructor
      · rintro ⟨hv, hne⟩
        refine ⟨hg, hv, ?_⟩
        intro hcontra
        rw [hcontra] at hne
        exact absurd hne (by decide)
      · rintro ⟨-, hv, hne⟩
        refine ⟨hv, ?_⟩
        cases hb : v.isEmpty with
        | false => rfl
        | true => exact absurd (eq_empty_of_isEmpty v hb) hne
    · rw [if_neg hg]
      simp [hg]
  · intro v
    unfold professionsFacet
    by_cases hp : "profession" ∈ column_ids
    · rw [if_pos hp, mem_value_counts]
      simp [hp]
    · rw [if_neg hp]
      simp [hp]
  · unfold gendersFacet
    by_cases hg : "gender" ∈ column_ids
    · rw [if_pos hg]
      exact (nodup_value_counts _).filter _
    · rw [if_neg hg]
      exact List.nodup_nil
  · unfold professionsFacet
    by_cases hp : "profession" ∈ column_ids
    · rw [if_pos hp]
      exact nodup_value_counts _
    · rw [if_neg hp]
      exact List.nodup_nil
  · unfold gendersFacet
    by_cases hg : "gender" ∈ column_ids
    · rw [if_pos hg]
      exact (pairwise_value_counts _).sublist (List.filter_sublist _)
    · rw [if_neg hg]
      exact List.Pairwise.nil
  · unfold professionsFacet
    by_cases hp : "profession" ∈ column_ids
    · rw [if_pos hp]
      exact pairwise_value_counts _
    · rw [if_neg hp]
      exact List.Pairwise.nil
  · intro cc m cd df0 res h
    unfold load_campaign_data at h
    rcases Option.bind_eq_some.mp h with ⟨df1, h1, h⟩
    rcases Option.bind_eq_some.mp h with ⟨df2, h2, h⟩
    rcases Option.bind_eq_some.mp h with ⟨df3, h3, h⟩
    rcases Option.bind_eq_some.mp h with ⟨df8, h8, h⟩
    rcases Option.bind_eq_some.mp h with ⟨countries, hcs, h⟩
    obtain rfl : _ = res := Option.some.inj h
    exact ⟨rfl, rfl⟩

/-- A dataframe observing the empty string and `"male"` as genders. -/
def dfGenderEmpty : List Row :=
  [[("gender", Cell.s "")], [("gender", Cell.s "male")]]

/-- Counterexample for C9 as stated: the empty string is a distinct non-null
observed gender value, yet the gender facet omits it (`if not gender:
continue`), so the facet is not "exactly the distinct non-null values". -/
theorem claim9_cex :
    rowGet (dfGenderEmpty.headD []) "gender" = Cell.s "" ∧
    "" ∈ colStrings dfGenderEmpty "gender" ∧
    "" ∉ gendersFacet ["gender"] dfGenderEmpty ∧
    gendersFacet ["gender"] dfGenderEmpty = ["male"] ∧
    "" ∈ professionsFacet ["profession"]
      [[("profession", Cell.s "")], [("profession", Cell.s "x")]] := by decide

/-- Witness for C9: the amended membership characterizations at a concrete
dataframe. -/
theorem claim9_witness :
    ("male" ∈ gendersFacet ["gender"] dfGenderEmpty ↔
      "gender" ∈ ["gender"] ∧ "male" ∈ colStrings dfGenderEmpty "gender" ∧
        "male" ≠ "") ∧
    ("" ∈ gendersFacet ["gender"] dfGenderEmpty ↔
      "gender" ∈ ["gender"] ∧ "" ∈ colStrings dfGenderEmpty "gender" ∧ "" ≠ "") :=
  ⟨(claim9_facets ["gender"] dfGenderEmpty).2.2.1 "male",
   (claim9_facets ["gender"] dfGenderEmpty).2.2.1 ""⟩
